import Mathlib

/-!
Verification of the bitboard chess engine (`chess_engine.py`), its search
agent (`chess_ai.py`) and the move-submission route of the Flask façade
(`app.py`).  Python lists are modelled as Lean `List`s, Python's
arbitrary-precision integers as `Nat`/`Int`, and dictionaries holding the
board state as a structure.  Python list indexing (including negative
indices, which wrap from the end) is modelled by `pyGetD`/`pySetD`.
-/

namespace Chess

/-- Python list read `l[i]` with Python's negative-index wrapping.
Out-of-range reads (which raise in Python) return the default. -/
def pyGetD {α : Type} (l : List α) (i : Int) (dflt : α) : α :=
  if 0 ≤ i then l.getD i.toNat dflt
  else if (-i).toNat ≤ l.length then l.getD (l.length - (-i).toNat) dflt
  else dflt

/-- Python list write `l[i] = v` with negative-index wrapping.
Out-of-range writes (which raise in Python) are dropped. -/
def pySetD {α : Type} (l : List α) (i : Int) (v : α) : List α :=
  if 0 ≤ i then l.set i.toNat v
  else if (-i).toNat ≤ l.length then l.set (l.length - (-i).toNat) v
  else l

-- ============================================================
-- Constants (chess_engine.py)
-- ============================================================

/-- Piece encoding: white pieces 0-5. -/
def P : Int := 0

def N : Int := 1

def B : Int := 2

def R : Int := 3

def Q : Int := 4

def K : Int := 5

/-- Black pieces 6-11 (lowercase in the source). -/
def pB : Int := 6   -- source name `p`

def nB : Int := 7   -- source name `n`

def bB : Int := 8   -- source name `b`

def rB : Int := 9   -- source name `r`

def qB : Int := 10  -- source name `q`

def kB : Int := 11  -- source name `k`

def EMPTY : Int := -1

def WHITE : Nat := 0

def BLACK : Nat := 1

def BOTH : Nat := 2

-- Square indices (0 = a1 ... 63 = h8), the ones the source names.
def A1 : Nat := 0

def B1 : Nat := 1

def C1 : Nat := 2

def D1 : Nat := 3

def E1 : Nat := 4

def F1 : Nat := 5

def G1 : Nat := 6

def H1 : Nat := 7

def A8 : Nat := 56

def B8 : Nat := 57

def C8 : Nat := 58

def D8 : Nat := 59

def E8 : Nat := 60

def F8 : Nat := 61

def G8 : Nat := 62

def H8 : Nat := 63

-- ============================================================
-- Bitboard helpers (chess_engine.py)
-- ============================================================

/-- `get_bit(bitboard, square)`: `(bitboard & (1 << square)) != 0`. -/
def get_bit (bitboard square : Nat) : Bool :=
  bitboard &&& (1 <<< square) ≠ 0

/-- `set_bit(bitboard, square)`: `bitboard | (1 << square)`. -/
def set_bit (bitboard square : Nat) : Nat :=
  bitboard ||| (1 <<< square)

/-- Python `x & ~y` on non-negative arbitrary-precision ints: clear from `x`
the bits it shares with `y`.  XORing out the common part computes exactly
that (the kernel evaluates `^^^`/`&&&` on literals directly). -/
def and_not (x y : Nat) : Nat :=
  x ^^^ (x &&& y)

/-- `pop_bit(bitboard, square)`: `bitboard & ~(1 << square)`. -/
def pop_bit (bitboard square : Nat) : Nat :=
  and_not bitboard (1 <<< square)

/-- Python `x.bit_length()`: number of binary digits.  Written with a
structural fuel (any fuel `≥ x` gives the halving recursion room to reach 0)
so that the kernel can evaluate it. -/
def bit_length_aux : Nat → Nat → Nat
  | 0, _ => 0
  | fuel + 1, x => if x = 0 then 0 else bit_length_aux fuel (x / 2) + 1

def bit_length (x : Nat) : Nat := bit_length_aux x x

/-- Python `bb & -bb` (two's complement) isolates the lowest set bit; on
naturals the same value is `bb ^^^ (bb &&& (bb - 1))`. -/
def lowest_bit (bb : Nat) : Nat :=
  bb ^^^ (bb &&& (bb - 1))

/-- `(bb & -bb).bit_length() - 1`: index of the least significant set bit. -/
def ls1b (bb : Nat) : Nat :=
  bit_length (lowest_bit bb) - 1

/-- The source's `while piece_bb: sq = ls1b; ...; piece_bb &= piece_bb - 1`
loop visits exactly this list of square indices, in this order.  Each pass
strictly decreases the bitboard, so fuel `bb` always suffices; the fuel is
structural so that the kernel can evaluate the loop. -/
def bitIndicesAux : Nat → Nat → List Nat
  | 0, _ => []
  | fuel + 1, bb => if bb = 0 then [] else ls1b bb :: bitIndicesAux fuel (bb &&& (bb - 1))

def bitIndices (bb : Nat) : List Nat := bitIndicesAux bb bb

-- ============================================================
-- Board state (chess_engine.py, create_initial_state)
-- ============================================================

inductive Status where
  | ongoing
  | checkmate
  | stalemate
deriving DecidableEq, Repr

/-- The state dict.  `history` is `none` when the `'history'` key is absent
(as in every `test_only` result of `make_move`). -/
structure BoardState where
  bitboards : List Nat
  occupancies : List Nat
  mailbox : List Int
  side_to_move : Nat
  castling_rights : Nat
  en_passant : Int
  halfmove : Int
  fullmove : Int
  game_status : Status
  selected_square : Option Nat
  history : Option (List (List Int))
deriving DecidableEq, Repr

/-- The four values of the move dict's optional `'castle'` key:
`'K'`, `'Q'`, `'k'`, `'q'`. -/
inductive CastleTag where
  | wk
  | wq
  | bk
  | bq
deriving DecidableEq, Repr

/-- A move dict `{'from': int, 'to': int, 'promote': int/None}`, with the
optional `'castle'` key modelled as an `Option`. -/
structure Move where
  frm : Nat
  toSq : Nat
  promote : Option Int
  castle : Option CastleTag
deriving DecidableEq, Repr

/-- `update_occupancies`: recompute `[white, black, both]` from the twelve
piece bitboards. -/
def update_occupancies (bitboards : List Nat) : List Nat :=
  let w := [P, N, B, R, Q, K].foldl (fun acc t => acc ||| pyGetD bitboards t 0) 0
  let bl := [pB, nB, bB, rB, qB, kB].foldl (fun acc t => acc ||| pyGetD bitboards t 0) 0
  [w, bl, w ||| bl]

/-- `setup_pieces`: set the given squares in a bitboard. -/
def setup_pieces (bitboard : Nat) (squares : List Nat) : Nat :=
  squares.foldl set_bit bitboard

/-- `setup_pieces`' mailbox half: record the piece on each square. -/
def setup_mailbox (mailbox : List Int) (piece_type : Int) (squares : List Nat) : List Int :=
  squares.foldl (fun mb sq => mb.set sq piece_type) mailbox

/-- `create_initial_state()`. -/
def create_initial_state : BoardState :=
  let wPsq := [8, 9, 10, 11, 12, 13, 14, 15]
  let bPsq := [48, 49, 50, 51, 52, 53, 54, 55]
  let bitboards : List Nat :=
    [setup_pieces 0 wPsq, setup_pieces 0 [B1, G1], setup_pieces 0 [C1, F1],
     setup_pieces 0 [A1, H1], setup_pieces 0 [D1], setup_pieces 0 [E1],
     setup_pieces 0 bPsq, setup_pieces 0 [B8, G8], setup_pieces 0 [C8, F8],
     setup_pieces 0 [A8, H8], setup_pieces 0 [D8], setup_pieces 0 [E8]]
  let mailbox : List Int :=
    setup_mailbox (setup_mailbox (setup_mailbox (setup_mailbox (setup_mailbox
      (setup_mailbox (setup_mailbox (setup_mailbox (setup_mailbox (setup_mailbox
      (setup_mailbox (setup_mailbox (List.replicate 64 EMPTY)
        P wPsq) R [A1, H1]) N [B1, G1]) B [C1, F1]) Q [D1]) K [E1])
        pB bPsq) rB [A8, H8]) nB [B8, G8]) bB [C8, F8]) qB [D8]) kB [E8]
  { bitboards := bitboards
    occupancies := update_occupancies bitboards
    mailbox := mailbox
    side_to_move := WHITE
    castling_rights := 0b1111
    en_passant := -1
    halfmove := 0
    fullmove := 1
    game_status := .ongoing
    selected_square := none
    history := some [mailbox] }

-- ============================================================
-- Attack tables (chess_engine.py, init_leapers and sliders)
-- ============================================================

/-- `pawn_attacks[color][sq]` as computed by `init_leapers`. -/
def pawn_attacks (color sq : Nat) : Nat :=
  if color = WHITE then
    if sq / 8 < 7 then
      (if sq % 8 > 0 then 1 <<< (sq + 7) else 0) |||
      (if sq % 8 < 7 then 1 <<< (sq + 9) else 0)
    else 0
  else
    if sq / 8 > 0 then
      (if sq % 8 > 0 then 1 <<< (sq - 9) else 0) |||
      (if sq % 8 < 7 then 1 <<< (sq - 7) else 0)
    else 0

/-- Accumulate the offsets of a leaper table entry, keeping on-board ones. -/
def leaper_mask (offsets : List (Int × Int)) : Nat :=
  offsets.foldl (fun (acc : Nat) (rf : Int × Int) =>
    if 0 ≤ rf.1 ∧ rf.1 ≤ 7 ∧ 0 ≤ rf.2 ∧ rf.2 ≤ 7 then
      acc ||| (1 <<< (rf.1 * 8 + rf.2).toNat)
    else acc) 0

/-- `knight_attacks[sq]` as computed by `init_leapers`. -/
def knight_attacks (sq : Nat) : Nat :=
  let rank : Int := sq / 8
  let file : Int := sq % 8
  leaper_mask
    [(rank + 2, file - 1), (rank + 2, file + 1),
     (rank + 1, file - 2), (rank + 1, file + 2),
     (rank - 2, file - 1), (rank - 2, file + 1),
     (rank - 1, file - 2), (rank - 1, file + 2)]

/-- `king_attacks[sq]` as computed by `init_leapers`. -/
def king_attacks (sq : Nat) : Nat :=
  let rank : Int := sq / 8
  let file : Int := sq % 8
  leaper_mask
    [(rank + 1, file - 1), (rank + 1, file), (rank + 1, file + 1),
     (rank, file - 1), (rank, file + 1),
     (rank - 1, file - 1), (rank - 1, file), (rank - 1, file + 1)]

/-- One ray of a sliding piece: walk from `(r, f)` in direction `(dr, df)`,
adding each on-board square and stopping after the first occupied one.  The
source's `while` loop takes at most 7 steps (each step moves one square in a
fixed direction `dr, df ∈ {-1, 0, 1}`, not both zero), so fuel 8 is exact. -/
def slider_ray (occupancy : Nat) (dr df : Int) : Nat → Int → Int → Nat
  | 0, _, _ => 0
  | fuel + 1, rr, f =>
    if 0 ≤ rr ∧ rr ≤ 7 ∧ 0 ≤ f ∧ f ≤ 7 then
      let sq := (rr * 8 + f).toNat
      (1 <<< sq) |||
        (if occupancy &&& (1 <<< sq) ≠ 0 then 0
         else slider_ray occupancy dr df fuel (rr + dr) (f + df))
    else 0

/-- `get_bishop_attacks(square, occupancy)`. -/
def get_bishop_attacks (square occupancy : Nat) : Nat :=
  let rank : Int := square / 8
  let file : Int := square % 8
  [((-1 : Int), (-1 : Int)), (-1, 1), (1, -1), (1, 1)].foldl
    (fun acc d => acc ||| slider_ray occupancy d.1 d.2 8 (rank + d.1) (file + d.2)) 0

/-- `get_rook_attacks(square, occupancy)`. -/
def get_rook_attacks (square occupancy : Nat) : Nat :=
  let rank : Int := square / 8
  let file : Int := square % 8
  [((-1 : Int), (0 : Int)), (1, 0), (0, -1), (0, 1)].foldl
    (fun acc d => acc ||| slider_ray occupancy d.1 d.2 8 (rank + d.1) (file + d.2)) 0

/-- `get_queen_attacks(square, occupancy)`. -/
def get_queen_attacks (square occupancy : Nat) : Nat :=
  get_bishop_attacks square occupancy ||| get_rook_attacks square occupancy

-- ============================================================
-- Attack queries (chess_engine.py)
-- ============================================================

/-- `is_square_attacked(state, square, by_color)`. -/
def is_square_attacked (state : BoardState) (square by_color : Nat) : Bool :=
  let bitboards := state.bitboards
  let occupancy := state.occupancies.getD BOTH 0
  let attacking_pawns := if by_color = WHITE then pyGetD bitboards P 0 else pyGetD bitboards pB 0
  let defender_color := if by_color = WHITE then BLACK else WHITE
  if pawn_attacks defender_color square &&& attacking_pawns ≠ 0 then true
  else
    let attacking_knights := if by_color = WHITE then pyGetD bitboards N 0 else pyGetD bitboards nB 0
    if knight_attacks square &&& attacking_knights ≠ 0 then true
    else
      let attacking_king := if by_color = WHITE then pyGetD bitboards K 0 else pyGetD bitboards kB 0
      if king_attacks square &&& attacking_king ≠ 0 then true
      else
        let attacking_bishops := if by_color = WHITE then pyGetD bitboards B 0 else pyGetD bitboards bB 0
        let attacking_queens := if by_color = WHITE then pyGetD bitboards Q 0 else pyGetD bitboards qB 0
        let diagonal_attackers := attacking_bishops ||| attacking_queens
        if get_bishop_attacks square occupancy &&& diagonal_attackers ≠ 0 then true
        else
          let attacking_rooks := if by_color = WHITE then pyGetD bitboards R 0 else pyGetD bitboards rB 0
          let straight_attackers := attacking_rooks ||| attacking_queens
          if get_rook_attacks square occupancy &&& straight_attackers ≠ 0 then true
          else false

/-- `is_in_check(state, side)`.  Note the source's empty-king-bitboard branch
`if not k_bb: return True` returns an answer instead of raising. -/
def is_in_check (state : BoardState) (side : Nat) : Bool :=
  let k_type := if side = WHITE then K else kB
  let k_bb := pyGetD state.bitboards k_type 0
  if k_bb = 0 then true
  else
    let k_sq := ls1b k_bb
    is_square_attacked state k_sq (if side = WHITE then BLACK else WHITE)

-- ============================================================
-- Move generation (chess_engine.py)
-- ============================================================

/-- `get_pawn_moves(state, sq, side, enemy, both)`. -/
def get_pawn_moves (state : BoardState) (sq side : Nat) (enemy both : Nat) : Nat :=
  let rank := sq / 8
  if side = WHITE then
    let target := sq + 8
    let moves : Nat :=
      if target < 64 ∧ ¬ get_bit both target then
        let m1 := 0 ||| (1 <<< target)
        if rank = 1 then
          let target2 := sq + 16
          if ¬ get_bit both target2 then m1 ||| (1 <<< target2) else m1
        else m1
      else 0
    let moves := moves ||| (pawn_attacks WHITE sq &&& enemy)
    if state.en_passant ≠ -1 then
      let ep_sq := state.en_passant
      if get_bit (pawn_attacks WHITE sq) ep_sq.toNat then moves ||| (1 <<< ep_sq.toNat)
      else moves
    else moves
  else
    let target : Int := (sq : Int) - 8
    let moves : Nat :=
      if 0 ≤ target ∧ ¬ get_bit both target.toNat then
        let m1 := 0 ||| (1 <<< target.toNat)
        if rank = 6 then
          let target2 := sq - 16
          if ¬ get_bit both target2 then m1 ||| (1 <<< target2) else m1
        else m1
      else 0
    let moves := moves ||| (pawn_attacks BLACK sq &&& enemy)
    if state.en_passant ≠ -1 then
      let ep_sq := state.en_passant
      if get_bit (pawn_attacks BLACK sq) ep_sq.toNat then moves ||| (1 <<< ep_sq.toNat)
      else moves
    else moves

/-- `generate_castling_moves(state, side)`. -/
def generate_castling_moves (state : BoardState) (side : Nat) : List Move :=
  if is_in_check state side then []
  else
    let occupancy := state.occupancies.getD BOTH 0
    let rights := state.castling_rights
    if side = WHITE then
      (if rights &&& 1 ≠ 0 ∧ ¬ get_bit occupancy F1 ∧ ¬ get_bit occupancy G1 ∧
          ¬ is_square_attacked state F1 BLACK ∧ ¬ is_square_attacked state G1 BLACK then
        [{ frm := E1, toSq := G1, promote := none, castle := some .wk }] else []) ++
      (if rights &&& 2 ≠ 0 ∧ ¬ get_bit occupancy D1 ∧ ¬ get_bit occupancy C1 ∧
          ¬ get_bit occupancy B1 ∧
          ¬ is_square_attacked state D1 BLACK ∧ ¬ is_square_attacked state C1 BLACK then
        [{ frm := E1, toSq := C1, promote := none, castle := some .wq }] else [])
    else
      (if rights &&& 4 ≠ 0 ∧ ¬ get_bit occupancy F8 ∧ ¬ get_bit occupancy G8 ∧
          ¬ is_square_attacked state F8 WHITE ∧ ¬ is_square_attacked state G8 WHITE then
        [{ frm := E8, toSq := G8, promote := none, castle := some .bk }] else []) ++
      (if rights &&& 8 ≠ 0 ∧ ¬ get_bit occupancy D8 ∧ ¬ get_bit occupancy C8 ∧
          ¬ get_bit occupancy B8 ∧
          ¬ is_square_attacked state D8 WHITE ∧ ¬ is_square_attacked state C8 WHITE then
        [{ frm := E8, toSq := C8, promote := none, castle := some .bq }] else [])

-- ============================================================
-- Move making (chess_engine.py, make_move)
-- ============================================================

/-- Step 6 of `make_move`: king moves clear both of that side's flags, and
touching a rook's corner square (moving from it or capturing on it) clears
the corresponding flag; `cr & ~mask` on Python ints is `and_not`. -/
def update_castling_rights (rights : Nat) (piece : Int) (frm toSq : Nat) : Nat :=
  let cr := rights
  let cr := if piece = K then cr &&& 0b1100 else cr
  let cr := if piece = kB then cr &&& 0b0011 else cr
  let cr := if frm = H1 ∨ toSq = H1 then and_not cr 1 else cr
  let cr := if frm = A1 ∨ toSq = A1 then and_not cr 2 else cr
  let cr := if frm = H8 ∨ toSq = H8 then and_not cr 4 else cr
  if frm = A8 ∨ toSq = A8 then and_not cr 8 else cr

/-- Steps 0-8 of `make_move` — the part shared by the full and the
`test_only=True` call.  The source computes exactly this and then, only
when `test_only` is false, appends history and classifies the terminal
status (steps 9-10); factoring the common part out breaks the
generation/legality recursion just as the source's flag does.  The result
has `game_status = ongoing`, `selected_square = None` and no `'history'`
key, exactly as the dict literal at the top of `make_move` builds it. -/
def make_move_core (state : BoardState) (move : Move) : BoardState :=
  let frm := move.frm
  let toSq := move.toSq
  let piece := state.mailbox.getD frm EMPTY
  let captured := state.mailbox.getD toSq EMPTY
  let side := state.side_to_move
  -- 0. Handle capture (remove from tables); capture resets the clock
  let new_bitboards :=
    if captured ≠ EMPTY then
      pySetD state.bitboards captured (pop_bit (pyGetD state.bitboards captured 0) toSq)
    else state.bitboards
  let halfmove : Int := if captured ≠ EMPTY then 0 else state.halfmove + 1
  -- 1. Move piece
  let new_bitboards := pySetD new_bitboards piece (pop_bit (pyGetD new_bitboards piece 0) frm)
  let new_bitboards := pySetD new_bitboards piece (set_bit (pyGetD new_bitboards piece 0) toSq)
  let new_mailbox := (state.mailbox.set frm EMPTY).set toSq piece
  -- 2. Handle promotion
  let new_bitboards :=
    match move.promote with
    | none => new_bitboards
    | some promo =>
      pySetD (pySetD new_bitboards piece (pop_bit (pyGetD new_bitboards piece 0) toSq))
        promo (set_bit (pyGetD (pySetD new_bitboards piece
          (pop_bit (pyGetD new_bitboards piece 0) toSq)) promo 0) toSq)
  let new_mailbox :=
    match move.promote with
    | none => new_mailbox
    | some promo => new_mailbox.set toSq promo
  -- 3. Handle en passant capture
  let epPair :=
    if (piece = P ∨ piece = pB) ∧ (toSq : Int) = state.en_passant then
      let cap_sq : Int := if side = WHITE then (toSq : Int) - 8 else (toSq : Int) + 8
      let captured_pawn := pyGetD new_mailbox cap_sq EMPTY
      (pySetD new_bitboards captured_pawn
        (pop_bit (pyGetD new_bitboards captured_pawn 0) cap_sq.toNat),
       pySetD new_mailbox cap_sq EMPTY)
    else (new_bitboards, new_mailbox)
  let new_bitboards := epPair.1
  let new_mailbox := epPair.2
  -- 4. Handle castling (move rook)
  let castlePair :=
    match move.castle with
    | none => (new_bitboards, new_mailbox)
    | some tag =>
      let rft : Int × Nat × Nat :=
        match tag with
        | .wk => (R, H1, F1)
        | .wq => (R, A1, D1)
        | .bk => (rB, H8, F8)
        | .bq => (rB, A8, D8)
      let rook := rft.1
      let r_from := rft.2.1
      let r_to := rft.2.2
      let nb := pySetD new_bitboards rook (pop_bit (pyGetD new_bitboards rook 0) r_from)
      let nb := pySetD nb rook (set_bit (pyGetD nb rook 0) r_to)
      (nb, (new_mailbox.set r_from EMPTY).set r_to rook)
  let new_bitboards := castlePair.1
  let new_mailbox := castlePair.2
  -- 5. Update en passant target
  let en_passant : Int :=
    if (piece = P ∨ piece = pB) ∧ ((frm : Int) - (toSq : Int)).natAbs = 16 then
      ((frm + toSq) / 2 : Nat)
    else -1
  -- 6. Update castling rights
  let cr := update_castling_rights state.castling_rights piece frm toSq
  -- 7. Update occupancies; 8. switch side
  let new_side := if side = WHITE then BLACK else WHITE
  { bitboards := new_bitboards
    occupancies := update_occupancies new_bitboards
    mailbox := new_mailbox
    side_to_move := new_side
    castling_rights := cr
    en_passant := en_passant
    halfmove := halfmove
    fullmove := if new_side = WHITE then state.fullmove + 1 else state.fullmove
    game_status := .ongoing
    selected_square := none
    history := none }

/-- `is_legal(state, move)`: apply in test-only mode and require the original
side's king not to be in check. -/
def is_legal (state : BoardState) (move : Move) : Bool :=
  ! is_in_check (make_move_core state move) state.side_to_move

/-- The piece loop of `generate_moves`: for each piece type of the side to
move in ascending order, for each source square in LS1B (ascending) order,
for each destination square of the pseudo-legal attack mask in LS1B order,
the legality-filtered moves, with pawn promotion expanded into four moves. -/
def generate_moves_core (state : BoardState) (only_captures : Bool) : List Move :=
  let side := state.side_to_move
  let bitboards := state.bitboards
  let occupancies := state.occupancies
  let friendly := if side = WHITE then occupancies.getD WHITE 0 else occupancies.getD BLACK 0
  let enemy := if side = WHITE then occupancies.getD BLACK 0 else occupancies.getD WHITE 0
  let both := occupancies.getD BOTH 0
  let pieces : List Int := if side = WHITE then [P, N, B, R, Q, K] else [pB, nB, bB, rB, qB, kB]
  pieces.flatMap (fun p_type =>
    (bitIndices (pyGetD bitboards p_type 0)).flatMap (fun from_sq =>
      let attacks :=
        if p_type = P ∨ p_type = pB then get_pawn_moves state from_sq side enemy both
        else if p_type = N ∨ p_type = nB then and_not (knight_attacks from_sq) friendly
        else if p_type = B ∨ p_type = bB then and_not (get_bishop_attacks from_sq both) friendly
        else if p_type = R ∨ p_type = rB then and_not (get_rook_attacks from_sq both) friendly
        else if p_type = Q ∨ p_type = qB then and_not (get_queen_attacks from_sq both) friendly
        else and_not (king_attacks from_sq) friendly
      let attacks := if only_captures then attacks &&& enemy else attacks
      (bitIndices attacks).flatMap (fun to_sq =>
        if (p_type = P ∧ 7 * 8 ≤ to_sq ∧ to_sq ≤ 7 * 8 + 7) ∨ (p_type = pB ∧ to_sq ≤ 7) then
          [Q, R, B, N].filterMap (fun promo =>
            let real_promo := if side = WHITE then promo else promo + 6
            let m : Move := { frm := from_sq, toSq := to_sq, promote := some real_promo,
                              castle := none }
            if is_legal state m then some m else none)
        else
          let m : Move := { frm := from_sq, toSq := to_sq, promote := none, castle := none }
          if is_legal state m then [m] else [])))

/-- `generate_moves(state, only_captures=False)`: the piece-loop moves with
the castling moves appended at the end. -/
def generate_moves (state : BoardState) (only_captures : Bool := false) : List Move :=
  generate_moves_core state only_captures ++
    (if only_captures then [] else generate_castling_moves state state.side_to_move)

/-- `make_move(state, move, test_only)`.  With `test_only=True` the result is
exactly `make_move_core`; otherwise history is appended (when the input has a
history) and the terminal status is classified by re-generating moves. -/
def make_move (state : BoardState) (move : Move) (test_only : Bool := false) : BoardState :=
  let ns := make_move_core state move
  if test_only then ns
  else
    let ns :=
      match state.history with
      | some h => { ns with history := some (h ++ [ns.mailbox]) }
      | none => ns
    if (generate_moves ns false).isEmpty then
      if is_in_check ns ns.side_to_move then { ns with game_status := .checkmate }
      else { ns with game_status := .stalemate }
    else ns

-- ============================================================
-- Evaluation (chess_ai.py)
-- ============================================================

/-- Material values (`MATERIAL` dict). -/
def MATERIAL (piece : Int) : Int :=
  if piece = P then 100 else if piece = N then 320 else if piece = B then 330
  else if piece = R then 500 else if piece = Q then 900 else if piece = K then 20000
  else if piece = pB then -100 else if piece = nB then -320 else if piece = bB then -330
  else if piece = rB then -500 else if piece = qB then -900 else if piece = kB then -20000
  else 0

def PAWN_PSQT : List Int :=
  [0, 0, 0, 0, 0, 0, 0, 0,
   50, 50, 50, 50, 50, 50, 50, 50,
   10, 10, 20, 30, 30, 20, 10, 10,
   5, 5, 10, 25, 25, 10, 5, 5,
   0, 0, 0, 20, 20, 0, 0, 0,
   5, -5, -10, 0, 0, -10, -5, 5,
   5, 10, 10, -20, -20, 10, 10, 5,
   0, 0, 0, 0, 0, 0, 0, 0]

def KNIGHT_PSQT : List Int :=
  [-50, -40, -30, -30, -30, -30, -40, -50,
   -40, -20, 0, 0, 0, 0, -20, -40,
   -30, 0, 10, 15, 15, 10, 0, -30,
   -30, 5, 15, 20, 20, 15, 5, -30,
   -30, 0, 15, 20, 20, 15, 0, -30,
   -30, 5, 10, 15, 15, 10, 5, -30,
   -40, -20, 0, 5, 5, 0, -20, -40,
   -50, -40, -30, -30, -30, -30, -40, -50]

def BISHOP_PSQT : List Int :=
  [-20, -10, -10, -10, -10, -10, -10, -20,
   -10, 0, 0, 0, 0, 0, 0, -10,
   -10, 0, 5, 10, 10, 5, 0, -10,
   -10, 5, 5, 10, 10, 5, 5, -10,
   -10, 0, 10, 10, 10, 10, 0, -10,
   -10, 10, 10, 10, 10, 10, 10, -10,
   -10, 5, 0, 0, 0, 0, 5, -10,
   -20, -10, -10, -10, -10, -10, -10, -20]

def ROOK_PSQT : List Int :=
  [0, 0, 0, 0, 0, 0, 0, 0,
   5, 10, 10, 10, 10, 10, 10, 5,
   -5, 0, 0, 0, 0, 0, 0, -5,
   -5, 0, 0, 0, 0, 0, 0, -5,
   -5, 0, 0, 0, 0, 0, 0, -5,
   -5, 0, 0, 0, 0, 0, 0, -5,
   -5, 0, 0, 0, 0, 0, 0, -5,
   0, 0, 0, 5, 5, 0, 0, 0]

def QUEEN_PSQT : List Int :=
  [-20, -10, -10, -5, -5, -10, -10, -20,
   -10, 0, 0, 0, 0, 0, 0, -10,
   -10, 0, 5, 5, 5, 5, 0, -10,
   -5, 0, 5, 5, 5, 5, 0, -5,
   0, 0, 5, 5, 5, 5, 0, -5,
   -10, 5, 5, 5, 5, 5, 0, -10,
   -10, 0, 5, 0, 0, 0, 0, -10,
   -20, -10, -10, -5, -5, -10, -10, -20]

def KING_PSQT : List Int :=
  [-30, -40, -40, -50, -50, -40, -40, -30,
   -30, -40, -40, -50, -50, -40, -40, -30,
   -30, -40, -40, -50, -50, -40, -40, -30,
   -30, -40, -40, -50, -50, -40, -40, -30,
   -20, -30, -30, -40, -40, -30, -30, -20,
   -10, -20, -20, -20, -20, -20, -20, -10,
   20, 20, 0, 0, 0, 0, 20, 20,
   20, 30, 10, 0, 0, 10, 30, 20]

/-- `PSQT` table per white piece type. -/
def PSQT (piece : Int) : List Int :=
  if piece = P then PAWN_PSQT else if piece = N then KNIGHT_PSQT
  else if piece = B then BISHOP_PSQT else if piece = R then ROOK_PSQT
  else if piece = Q then QUEEN_PSQT else KING_PSQT

/-- `evaluate(state)`: static evaluation from White's perspective. -/
def evaluate (state : BoardState) : Int :=
  if state.game_status = .checkmate then
    if state.side_to_move = WHITE then -20000 else 20000
  else if state.game_status = .stalemate then 0
  else
    let whiteScore :=
      [P, N, B, R, Q, K].foldl (fun acc t =>
        (bitIndices (pyGetD state.bitboards t 0)).foldl (fun acc2 sq =>
          let rank := sq / 8
          let file := sq % 8
          let table_idx := (7 - rank) * 8 + file
          acc2 + MATERIAL t + (PSQT t).getD table_idx 0) acc) 0
    [pB, nB, bB, rB, qB, kB].foldl (fun acc t =>
      let base_type := t - 6
      (bitIndices (pyGetD state.bitboards t 0)).foldl (fun acc2 sq =>
        let flipped_sq := sq ^^^ 56
        let f_rank := flipped_sq / 8
        let f_file := flipped_sq % 8
        let table_idx := (7 - f_rank) * 8 + f_file
        acc2 + MATERIAL t - (PSQT base_type).getD table_idx 0) acc) whiteScore

-- ============================================================
-- Search (chess_ai.py)
-- ============================================================

/-- Python scores during search live in `int ∪ {-inf, +inf}`; `⊥` is
`-float('inf')` and `⊤` is `float('inf')`. -/
abbrev Score : Type := WithBot (WithTop Int)

/-- A finite (integer) score. -/
def Score.ofInt (z : Int) : Score := ((z : WithTop Int) : Score)

mutual

/-- `minimax(state, depth, alpha, beta, maximizing_player)`.  The source is
only ever invoked with non-negative depth (the root passes `depth - 1` with
`depth ≥ 1`), so depth is a natural number. -/
def minimax (state : BoardState) (depth : Nat) (alpha beta : Score)
    (maximizing_player : Bool) : Score :=
  if h : depth = 0 ∨ state.game_status ≠ .ongoing then Score.ofInt (evaluate state)
  else
    let moves := generate_moves state false
    if moves.isEmpty then
      if is_in_check state state.side_to_move then
        if maximizing_player then Score.ofInt (-20000 + (10 - (depth : Int)))
        else Score.ofInt (20000 - (10 - (depth : Int)))
      else Score.ofInt 0
    else if maximizing_player then
      maximaxLoop state (depth - 1) beta moves ⊥ alpha
    else
      minimaxLoop state (depth - 1) alpha moves ⊤ beta
termination_by (depth, 0)
decreasing_by
  all_goals exact Prod.Lex.left _ _ (Nat.sub_lt (Nat.pos_of_ne_zero (fun hh => h (Or.inl hh))) Nat.one_pos)

/-- The maximizing player's `for move in moves` loop: `max_eval`/`alpha`
accumulate, and the loop breaks once `beta <= alpha`. -/
def maximaxLoop (state : BoardState) (depth : Nat) (beta : Score) :
    List Move → Score → Score → Score
  | [], max_eval, _ => max_eval
  | move :: rest, max_eval, alpha =>
    let eval_score := minimax (make_move state move false) depth alpha beta false
    let max_eval' := max max_eval eval_score
    let alpha' := max alpha eval_score
    if beta ≤ alpha' then max_eval'
    else maximaxLoop state depth beta rest max_eval' alpha'
termination_by l _me _a => (depth, l.length + 1)
decreasing_by
  all_goals first
    | exact Prod.Lex.right _ (Nat.zero_lt_succ _)
    | exact Prod.Lex.right _ (Nat.succ_lt_succ (Nat.lt_succ_self _))

/-- The minimizing player's loop: `min_eval`/`beta` accumulate, breaking once
`beta <= alpha`. -/
def minimaxLoop (state : BoardState) (depth : Nat) (alpha : Score) :
    List Move → Score → Score → Score
  | [], min_eval, _ => min_eval
  | move :: rest, min_eval, beta =>
    let eval_score := minimax (make_move state move false) depth alpha beta true
    let min_eval' := min min_eval eval_score
    let beta' := min beta eval_score
    if beta' ≤ alpha then min_eval'
    else minimaxLoop state depth alpha rest min_eval' beta'
termination_by l _me _bt => (depth, l.length + 1)
decreasing_by
  all_goals first
    | exact Prod.Lex.right _ (Nat.zero_lt_succ _)
    | exact Prod.Lex.right _ (Nat.succ_lt_succ (Nat.lt_succ_self _))

end

/-- The root loop of `get_best_move`: walks the (already shuffled) candidate
list tracking `(best_move, best_score)`, widening `alpha` for the maximizing
side and narrowing `beta` for the minimizing side; the root never breaks. -/
def rootLoop (state : BoardState) (depth : Nat) (maximizing : Bool) :
    List Move → Option Move × Score → Score → Score → Option Move × Score
  | [], best, _, _ => best
  | move :: rest, best, alpha, beta =>
    let new_state := make_move state move false
    let score := minimax new_state (depth - 1) alpha beta (!maximizing)
    if maximizing then
      let best' := if best.2 < score then (some move, score) else best
      rootLoop state depth maximizing rest best' (max alpha score) beta
    else
      let best' := if score < best.2 then (some move, score) else best
      rootLoop state depth maximizing rest best' alpha (min beta score)

/-- `get_best_move(state, depth)` given the candidate list that
`random.shuffle` produced (some permutation of `generate_moves(state)`).
Returns the chosen move together with the final `best_score`. -/
def get_best_move_from (state : BoardState) (depth : Nat) (moves : List Move) :
    Option Move × Score :=
  if moves.isEmpty then (none, if state.side_to_move = WHITE then ⊥ else ⊤)
  else
    let maximizing := state.side_to_move = WHITE
    rootLoop state depth maximizing moves
      (none, if maximizing then ⊥ else ⊤) ⊥ ⊤

-- ============================================================
-- The move-submission route (app.py, move_piece)
-- ============================================================

/-- Outcome of `POST /move/<frm>/<to>`:
`rejected` is the route's `jsonify({'success': False})` (game already over,
or no legal move matches the submitted pair — the IllegalMove case);
`promotionPending` is the `{'success': True, 'promotion': True}` answer that
defers the move until a promotion piece is chosen (nothing is applied);
`applied` carries the state produced by `make_move` and saved to the
session. -/
inductive MoveOutcome where
  | rejected
  | promotionPending (frm toSq : Nat)
  | applied (state : BoardState)
deriving DecidableEq, Repr

/-- `move_piece(frm, to)` from app.py: rejects when the game is over,
signals promotion when the pair matches only promotion variants, otherwise
applies the first legal move with the submitted source and destination, and
rejects when there is none.  The input state is never touched: only
`make_move`'s fresh result is saved. -/
def move_piece (state : BoardState) (frm toSq : Nat) : MoveOutcome :=
  if state.game_status ≠ .ongoing then .rejected
  else
    let moves := generate_moves state false
    let promo_moves := moves.filter (fun m => m.frm = frm ∧ m.toSq = toSq ∧ m.promote ≠ none)
    if ¬ promo_moves.isEmpty then .promotionPending frm toSq
    else
      match moves.find? (fun m => m.frm = frm ∧ m.toSq = toSq) with
      | some m => .applied (make_move state m false)
      | none => .rejected

/-- `applyMove` iterated over a move sequence (full, non-test applies). -/
def applySeq (s : BoardState) (ms : List Move) : BoardState :=
  ms.foldl (fun st mv => make_move st mv false) s

/-- Modelled from the spec: `isInCheck` treats an empty king bitset as an
InvariantViolation — "treated as fatal (abort/raise), never silently
defaulted".  The abort is modelled as `none`; otherwise the answer is the
attack query the source performs. -/
def is_in_check_spec (state : BoardState) (side : Nat) : Option Bool :=
  let k_type := if side = WHITE then K else kB
  let k_bb := pyGetD state.bitboards k_type 0
  if k_bb = 0 then none
  else some (is_square_attacked state (ls1b k_bb) (if side = WHITE then BLACK else WHITE))

/-- A state whose king bitsets are empty (an empty board). -/
def emptyBoard : BoardState :=
  { bitboards := List.replicate 12 0
    occupancies := [0, 0, 0]
    mailbox := List.replicate 64 EMPTY
    side_to_move := WHITE
    castling_rights := 0
    en_passant := -1
    halfmove := 0
    fullmove := 1
    game_status := .ongoing
    selected_square := none
    history := none }

/-- A hand-built stalemate position (not yet classified): Black to move with
only a king on a8, boxed in by the white queen on c7; White's king on e1. -/
def cornerStalemate : BoardState :=
  { bitboards := [0, 0, 0, 0, 1 <<< 50, 1 <<< 4, 0, 0, 0, 0, 0, 1 <<< 56]
    occupancies := update_occupancies [0, 0, 0, 0, 1 <<< 50, 1 <<< 4, 0, 0, 0, 0, 0, 1 <<< 56]
    mailbox := (((List.replicate 64 EMPTY).set 4 K).set 50 Q).set 56 kB
    side_to_move := BLACK
    castling_rights := 0
    en_passant := -1
    halfmove := 3
    fullmove := 30
    game_status := .ongoing
    selected_square := none
    history := none }

-- ============================================================
-- C8: ordering of the generated move list
-- ============================================================

/-- The ordering key the spec asserts: piece type at the source square,
then source square, then destination square. -/
def move_key (s : BoardState) (m : Move) : Int × Nat × Nat :=
  (s.mailbox.getD m.frm EMPTY, m.frm, m.toSq)

/-- Lexicographic comparison of ordering keys. -/
def key_le (a bq : Int × Nat × Nat) : Prop :=
  a.1 < bq.1 ∨ (a.1 = bq.1 ∧ (a.2.1 < bq.2.1 ∨ (a.2.1 = bq.2.1 ∧ a.2.2 ≤ bq.2.2)))

instance (a bq : Int × Nat × Nat) : Decidable (key_le a bq) := by
  unfold key_le
  infer_instance

/-- The board is coherent: piece bitboards fit in 64 bits and every set bit
is mirrored by the mailbox (the spec's square-cache invariant). -/
def MailboxMatchesBitboards (s : BoardState) : Prop :=
  ∀ t : Nat, t < 12 →
    pyGetD s.bitboards (t : Int) 0 < 2 ^ 64 ∧
    ∀ sq : Nat, sq < 64 → (pyGetD s.bitboards (t : Int) 0).testBit sq = true →
      s.mailbox.getD sq EMPTY = (t : Int)

instance (s : BoardState) : Decidable (MailboxMatchesBitboards s) := by
  unfold MailboxMatchesBitboards
  infer_instance

/-- A hand-built position where White may castle both sides: king e1, rooks
a1 and h1, black king e8, both white castling flags set. -/
def castleDemo : BoardState :=
  { bitboards := [0, 0, 0, 129, 0, 1 <<< 4, 0, 0, 0, 0, 0, 1 <<< 60]
    occupancies := update_occupancies [0, 0, 0, 129, 0, 1 <<< 4, 0, 0, 0, 0, 0, 1 <<< 60]
    mailbox := (((((List.replicate 64 EMPTY).set 0 R).set 7 R).set 4 K).set 60 kB)
    side_to_move := WHITE
    castling_rights := 3
    en_passant := -1
    halfmove := 0
    fullmove := 1
    game_status := .ongoing
    selected_square := none
    history := none }

-- ============================================================
-- C5: the root best score is shuffle-invariant
-- ============================================================

/-- Fold a running maximum of `f` over a move list. -/
def foldMaxBy (f : Move → Score) : List Move → Score → Score
  | [], acc => acc
  | mv :: rest, acc => foldMaxBy f rest (max acc (f mv))

/-- Fold a running minimum of `f` over a move list. -/
def foldMinBy (f : Move → Score) : List Move → Score → Score
  | [], acc => acc
  | mv :: rest, acc => foldMinBy f rest (min acc (f mv))

/-- Pruning-free reference minimax: the same base cases as `minimax`, with a
plain max/min fold over the children instead of the alpha-beta loop.  (The
source's `depth == 0` test comes first, so the structural base case at depth
0 is the static evaluation.) -/
def pminimax : Nat → BoardState → Bool → Score
  | 0, state, _ => Score.ofInt (evaluate state)
  | dd + 1, state, mx =>
    if state.game_status ≠ .ongoing then Score.ofInt (evaluate state)
    else
      let moves := generate_moves state false
      if moves.isEmpty then
        if is_in_check state state.side_to_move then
          if mx then Score.ofInt (-20000 + (10 - ((dd + 1 : Nat) : Int)))
          else Score.ofInt (20000 - (10 - ((dd + 1 : Nat) : Int)))
        else Score.ofInt 0
      else if mx then
        foldMaxBy (fun mv => pminimax dd (make_move state mv false) false) moves ⊥
      else
        foldMinBy (fun mv => pminimax dd (make_move state mv false) true) moves ⊤

/-- A score is finite when it is neither `-inf` nor `+inf`. -/
def IsFin (x : Score) : Prop := x ≠ ⊥ ∧ x ≠ ⊤

-- ============================================================
-- C6: make_move never mutates its input (heap model)
-- ============================================================

/-- A heap cell: a Python list of ints (mailbox snapshots), of non-negative
ints (bitboards/occupancies), or of references (the history list holds
references to mailbox snapshot lists). -/
inductive Cell where
  | ints (xs : List Int)
  | nats (xs : List Nat)
  | refs (rs : List Nat)
deriving DecidableEq, Repr

/-- A heap: list objects addressed by allocation order. -/
structure Heap where
  data : Nat → Cell
  next : Nat

def readNats (h : Heap) (a : Nat) : List Nat :=
  match h.data a with
  | .nats xs => xs
  | _ => []

def readInts (h : Heap) (a : Nat) : List Int :=
  match h.data a with
  | .ints xs => xs
  | _ => []

def readRefs (h : Heap) (a : Nat) : List Nat :=
  match h.data a with
  | .refs rs => rs
  | _ => []

/-- The state dict as Python holds it: the three arrays and the history are
references into the heap; scalars are immediate. -/
structure PyBoardState where
  bbA : Nat
  occA : Nat
  mbA : Nat
  side_to_move : Nat
  castling_rights : Nat
  en_passant : Int
  halfmove : Int
  fullmove : Int
  game_status : Status
  selected_square : Option Nat
  histA : Option Nat
deriving DecidableEq, Repr

/-- Dereference a heap-resident state into the value-level `BoardState`. -/
def derefState (h : Heap) (st : PyBoardState) : BoardState :=
  { bitboards := readNats h st.bbA
    occupancies := readNats h st.occA
    mailbox := readInts h st.mbA
    side_to_move := st.side_to_move
    castling_rights := st.castling_rights
    en_passant := st.en_passant
    halfmove := st.halfmove
    fullmove := st.fullmove
    game_status := st.game_status
    selected_square := st.selected_square
    history := st.histA.map (fun ha => (readRefs h ha).map (readInts h)) }

/-- The history reference, when present, points below the frontier and its
element references do too. -/
def HistWF (h : Heap) : Option Nat → Prop
  | none => True
  | some ha => ha < h.next ∧ ∀ r ∈ readRefs h ha, r < h.next

instance (h : Heap) (o : Option Nat) : Decidable (HistWF h o) := by
  cases o <;> (unfold HistWF; infer_instance)

/-- All references of a heap-resident state point below the allocation
frontier. -/
def HeapWF (h : Heap) (st : PyBoardState) : Prop :=
  st.bbA < h.next ∧ st.occA < h.next ∧ st.mbA < h.next ∧ HistWF h st.histA

instance (h : Heap) (st : PyBoardState) : Decidable (HeapWF h st) := by
  unfold HeapWF
  infer_instance

/-- `make_move` on the heap: `list(...)` copies the three arrays into fresh
cells (addresses `next`, `next+1`, `next+2`), steps 0-8 update those fresh
cells in place (their final contents are the arrays the pure `make_move`
computes from the same dereferenced input), and a full apply additionally
copies the history list (a fresh list of the *same* snapshot references)
and appends a fresh snapshot of the new mailbox.  No write ever targets an
address owned by the input state. -/
def make_move_heap (h : Heap) (st : PyBoardState) (mv : Move) (test_only : Bool) :
    Heap × PyBoardState :=
  let ns := make_move (derefState h st) mv test_only
  let bbA := h.next
  let occA := h.next + 1
  let mbA := h.next + 2
  let h3 : Heap :=
    { data := fun x =>
        if x = bbA then Cell.nats ns.bitboards
        else if x = occA then Cell.nats ns.occupancies
        else if x = mbA then Cell.ints ns.mailbox
        else h.data x
      next := h.next + 3 }
  if test_only then
    (h3, { bbA := bbA, occA := occA, mbA := mbA, side_to_move := ns.side_to_move,
           castling_rights := ns.castling_rights, en_passant := ns.en_passant,
           halfmove := ns.halfmove, fullmove := ns.fullmove,
           game_status := ns.game_status, selected_square := ns.selected_square,
           histA := none })
  else
    match st.histA with
    | some ha =>
      let snapA := h.next + 3
      let histA := h.next + 4
      let h5 : Heap :=
        { data := fun x =>
            if x = snapA then Cell.ints ns.mailbox
            else if x = histA then Cell.refs (readRefs h ha ++ [snapA])
            else h3.data x
          next := h.next + 5 }
      (h5, { bbA := bbA, occA := occA, mbA := mbA, side_to_move := ns.side_to_move,
             castling_rights := ns.castling_rights, en_passant := ns.en_passant,
             halfmove := ns.halfmove, fullmove := ns.fullmove,
             game_status := ns.game_status, selected_square := ns.selected_square,
             histA := some histA })
    | none =>
      (h3, { bbA := bbA, occA := occA, mbA := mbA, side_to_move := ns.side_to_move,
             castling_rights := ns.castling_rights, en_passant := ns.en_passant,
             halfmove := ns.halfmove, fullmove := ns.fullmove,
             game_status := ns.game_status, selected_square := ns.selected_square,
             histA := none })

/-- A concrete heap holding the initial position: the three arrays at
addresses 0-2, the history list at 3 holding one snapshot reference 4. -/
def demoHeap : Heap :=
  { data := fun a =>
      if a = 0 then Cell.nats create_initial_state.bitboards
      else if a = 1 then Cell.nats create_initial_state.occupancies
      else if a = 2 then Cell.ints create_initial_state.mailbox
      else if a = 3 then Cell.refs [4]
      else if a = 4 then Cell.ints create_initial_state.mailbox
      else Cell.nats []
    next := 5 }

/-- The heap-resident initial state pointing into `demoHeap`. -/
def demoPyState : PyBoardState :=
  { bbA := 0, occA := 1, mbA := 2, side_to_move := 0, castling_rights := 15,
    en_passant := -1, halfmove := 0, fullmove := 1, game_status := Status.ongoing,
    selected_square := none, histA := some 3 }

lemma and_not_testBit (x y i : Nat) :
    (and_not x y).testBit i = (x.testBit i && !(y.testBit i)) := by
  simp only [and_not, Nat.testBit_xor, Nat.testBit_land]
  cases x.testBit i <;> cases y.testBit i <;> rfl

-- ============================================================
-- Helper lemmas
-- ============================================================

/-- `make_move` only patches `history` and `game_status` on top of
`make_move_core`; every other field is the core's. -/
lemma make_move_halfmove_eq_core (s : BoardState) (m : Move) (t : Bool) :
    (make_move s m t).halfmove = (make_move_core s m).halfmove := by
  unfold make_move
  split
  · rfl
  · split <;> (dsimp only) <;> split <;> (try split) <;> rfl

lemma make_move_castling_eq_core (s : BoardState) (m : Move) (t : Bool) :
    (make_move s m t).castling_rights = (make_move_core s m).castling_rights := by
  unfold make_move
  split
  · rfl
  · split <;> (dsimp only) <;> split <;> (try split) <;> rfl

lemma make_move_core_halfmove (s : BoardState) (m : Move) :
    (make_move_core s m).halfmove =
      if s.mailbox.getD m.toSq EMPTY ≠ EMPTY then 0 else s.halfmove + 1 := rfl

lemma make_move_core_castling (s : BoardState) (m : Move) :
    (make_move_core s m).castling_rights =
      update_castling_rights s.castling_rights (s.mailbox.getD m.frm EMPTY) m.frm m.toSq := rfl

/-- A cleared castling-rights bit stays cleared through
`update_castling_rights`: the function only ANDs masks onto it. -/
lemma update_castling_rights_antitone (rights : Nat) (piece : Int) (frm toSq i : Nat)
    (h : (update_castling_rights rights piece frm toSq).testBit i = true) :
    rights.testBit i = true := by
  unfold update_castling_rights at h
  dsimp only at h
  repeat' split at h
  all_goals try simp only [and_not_testBit, Nat.testBit_land, Bool.and_eq_true] at h
  all_goals tauto

/-- Castling-rights bits survive `make_move` only by having been set before:
each move can only AND masks onto the rights word. -/
lemma make_move_castling_antitone (s : BoardState) (m : Move) (t : Bool) (i : Nat)
    (h : (make_move s m t).castling_rights.testBit i = true) :
    s.castling_rights.testBit i = true := by
  rw [make_move_castling_eq_core, make_move_core_castling] at h
  exact update_castling_rights_antitone _ _ _ _ _ h

lemma applySeq_castling_antitone (ms : List Move) (s : BoardState) (i : Nat)
    (h : (applySeq s ms).castling_rights.testBit i = true) :
    s.castling_rights.testBit i = true := by
  induction ms generalizing s with
  | nil => exact h
  | cons mv rest ih =>
    exact make_move_castling_antitone _ _ _ _ (ih (make_move s mv false) h)

-- ============================================================
-- Claim theorems
-- ============================================================

/-- C7: starting from the initial state, each castling-rights flag is
monotone across every applied move sequence — once a flag reads cleared
after some prefix `ms₁`, it reads cleared after every extension `ms₁ ++ ms₂`:
`make_move` only ever ANDs clearing masks onto the rights word. -/
theorem castling_flag_never_reset (ms₁ ms₂ : List Move) (i : Nat)
    (h : (applySeq create_initial_state ms₁).castling_rights.testBit i = false) :
    (applySeq create_initial_state (ms₁ ++ ms₂)).castling_rights.testBit i = false := by
  have hsplit : applySeq create_initial_state (ms₁ ++ ms₂) =
      applySeq (applySeq create_initial_state ms₁) ms₂ := by
    simp [applySeq, List.foldl_append]
  rw [hsplit]
  by_contra hc
  rw [Bool.not_eq_false] at hc
  rw [applySeq_castling_antitone ms₂ _ i hc] at h
  exact absurd h (by simp)

/-- Witness for C7: the rook move h1-h4 clears the white-kingside flag
(bit 0), and it stays cleared after black replies b8-a6. -/
theorem castling_flag_never_reset_witness :
    (applySeq create_initial_state
        [{ frm := 7, toSq := 31, promote := none, castle := none }]).castling_rights.testBit 0
      = false ∧
    (applySeq create_initial_state
        ([{ frm := 7, toSq := 31, promote := none, castle := none }] ++
         [{ frm := 57, toSq := 40, promote := none, castle := none }])).castling_rights.testBit 0
      = false := by
  refine ⟨by decide, castling_flag_never_reset _ _ _ (by decide)⟩

/-- C9: from the standard starting position the side to move has exactly 20
legal moves: 16 pawn pushes/double-pushes and 4 knight moves. -/
theorem initial_position_twenty_moves :
    (generate_moves create_initial_state false).length = 20 ∧
    ((generate_moves create_initial_state false).filter
      (fun m => create_initial_state.mailbox.getD m.frm EMPTY = P)).length = 16 ∧
    ((generate_moves create_initial_state false).filter
      (fun m => create_initial_state.mailbox.getD m.frm EMPTY = N)).length = 4 := by
  decide

/-- C10: a `test_only` apply always reports `ongoing` and carries no history
field, whatever the position actually is; terminal classification and
history appending happen only in a full apply. -/
theorem make_move_test_only_ongoing_no_history (s : BoardState) (m : Move) :
    (make_move s m true).game_status = .ongoing ∧
    (make_move s m true).history = none := by
  constructor <;> rfl

/-- C3 (amended): the halfmove clock of the state `make_move` returns is `0`
exactly when the destination square was occupied (a direct capture), and the
input clock plus one otherwise — pawn moves and en-passant captures do not
reset it. -/
theorem make_move_halfmove_clock (s : BoardState) (m : Move) (t : Bool)
    (_hin : m.toSq < s.mailbox.length) :
    (make_move s m t).halfmove =
      if s.mailbox.getD m.toSq EMPTY ≠ EMPTY then 0 else s.halfmove + 1 := by
  rw [make_move_halfmove_eq_core, make_move_core_halfmove]

/-- Witness for C3 (amended): applying e2-e4 to the initial position (no
capture) yields halfmove clock 0 + 1 = 1. -/
theorem make_move_halfmove_clock_witness :
    (12 : Nat) < create_initial_state.mailbox.length ∧
    (make_move create_initial_state
      { frm := 12, toSq := 28, promote := none, castle := none } false).halfmove = 1 := by
  refine ⟨by decide, ?_⟩
  rw [make_move_halfmove_clock create_initial_state
    { frm := 12, toSq := 28, promote := none, castle := none } false (by decide)]
  decide

/-- C3 counterexample: e2-e4 from the initial position is a pawn move and
not a capture, yet the halfmove clock of the result is 1, not the 0 the
claim requires — the code resets the clock only on direct captures. -/
theorem pawn_move_does_not_reset_halfmove :
    create_initial_state.mailbox.getD 12 EMPTY = P ∧
    create_initial_state.mailbox.getD 28 EMPTY = EMPTY ∧
    (make_move create_initial_state
      { frm := 12, toSq := 28, promote := none, castle := none } false).halfmove ≠ 0 := by
  refine ⟨by decide, by decide, ?_⟩
  rw [make_move_halfmove_eq_core, make_move_core_halfmove]
  decide

/-- C2 counterexample: with White's king bitset empty, the engine's
`is_in_check` silently answers `true` (the `if not k_bb: return True`
branch), where the spec's fatal-InvariantViolation reading (`none` in the
spec-modelled variant) demands an abort instead of an answer. -/
theorem is_in_check_empty_king_not_fatal :
    is_in_check emptyBoard WHITE = true ∧ is_in_check_spec emptyBoard WHITE = none := by
  constructor <;> rfl

/-- C2 (amended): whenever the queried side's king bitset is empty,
`is_in_check` silently defaults to `true` — it never aborts or raises. -/
theorem is_in_check_empty_king_defaults (s : BoardState) (side : Nat)
    (h : pyGetD s.bitboards (if side = WHITE then K else kB) 0 = 0) :
    is_in_check s side = true := by
  unfold is_in_check
  simp only [h]
  rfl

/-- Witness for C2 (amended): the empty board has an empty white king
bitset, and `is_in_check` answers `true` on it. -/
theorem is_in_check_empty_king_defaults_witness :
    pyGetD emptyBoard.bitboards (if WHITE = WHITE then K else kB) 0 = 0 ∧
    is_in_check emptyBoard WHITE = true := by
  exact ⟨by decide, is_in_check_empty_king_defaults emptyBoard WHITE (by decide)⟩

/-- C1: when a submitted (source, destination) pair matches no move in the
legal move list, the `/move` route rejects it (`{'success': False}`, the
IllegalMove outcome) without calling `make_move`: nothing is applied and the
session keeps the untouched input state. -/
theorem move_piece_rejects_illegal (s : BoardState) (frm toSq : Nat)
    (h : ∀ m ∈ generate_moves s false, ¬ (m.frm = frm ∧ m.toSq = toSq)) :
    move_piece s frm toSq = .rejected := by
  unfold move_piece
  split
  · rfl
  · have hfilter : (generate_moves s false).filter
        (fun m => m.frm = frm ∧ m.toSq = toSq ∧ m.promote ≠ none) = [] := by
      rw [List.filter_eq_nil_iff]
      intro a ha
      simp only [decide_eq_true_eq]
      intro hcon
      exact h a ha ⟨hcon.1, hcon.2.1⟩
    have hfind : (generate_moves s false).find? (fun m => m.frm = frm ∧ m.toSq = toSq)
        = none := by
      rw [List.find?_eq_none]
      intro a ha
      simp only [decide_eq_true_eq]
      exact h a ha
    dsimp only
    rw [hfilter, hfind]
    simp

/-- Witness for C1: e2-e5 is not among the initial position's legal moves,
and the route rejects it. -/
theorem move_piece_rejects_illegal_witness :
    (∀ m ∈ generate_moves create_initial_state false, ¬ (m.frm = 12 ∧ m.toSq = 36)) ∧
    move_piece create_initial_state 12 36 = .rejected := by
  exact ⟨by decide, move_piece_rejects_illegal create_initial_state 12 36 (by decide)⟩

/-- C4: `minimax` returns the static evaluation at depth zero or on a
non-ongoing state; and at a node with no legal moves it returns the
depth-biased mate score when the side to move is in check (negative for the
maximizing player, positive for the minimizing player, each preferring
shallower mates) and exactly zero for stalemate. -/
theorem minimax_terminal_cases (s : BoardState) (d : Nat) (alpha beta : Score) (mx : Bool) :
    (d = 0 ∨ s.game_status ≠ .ongoing →
      minimax s d alpha beta mx = Score.ofInt (evaluate s)) ∧
    (¬ (d = 0 ∨ s.game_status ≠ .ongoing) → generate_moves s false = [] →
      minimax s d alpha beta mx =
        if is_in_check s s.side_to_move then
          if mx then Score.ofInt (-20000 + (10 - (d : Int)))
          else Score.ofInt (20000 - (10 - (d : Int)))
        else Score.ofInt 0) := by
  constructor
  · intro h
    rw [minimax, dif_pos h]
  · intro h hm
    rw [minimax, dif_neg h]
    simp only [hm, List.isEmpty_nil, if_true]

/-- Witness for C4: at depth 0 the initial position evaluates statically,
and on the boxed-in stalemate position (no legal moves, not in check) the
search returns exactly zero. -/
theorem minimax_terminal_cases_witness :
    ((0 : Nat) = 0 ∨ create_initial_state.game_status ≠ .ongoing) ∧
    minimax create_initial_state 0 ⊥ ⊤ true = Score.ofInt (evaluate create_initial_state) ∧
    (¬ ((1 : Nat) = 0 ∨ cornerStalemate.game_status ≠ .ongoing)) ∧
    generate_moves cornerStalemate false = [] ∧
    is_in_check cornerStalemate cornerStalemate.side_to_move = false ∧
    minimax cornerStalemate 1 ⊥ ⊤ false = Score.ofInt 0 := by
  refine ⟨Or.inl rfl, (minimax_terminal_cases create_initial_state 0 ⊥ ⊤ true).1 (Or.inl rfl),
    by decide, by decide, by decide, ?_⟩
  rw [(minimax_terminal_cases cornerStalemate 1 ⊥ ⊤ false).2 (by decide) (by decide)]
  rw [if_neg]
  rw [show is_in_check cornerStalemate cornerStalemate.side_to_move = false from by decide]
  exact Bool.false_ne_true

-- ============================================================
-- Bit-twiddling lemmas for the LS1B loop
-- ============================================================

lemma bit_length_aux_eq : ∀ fuel x : Nat, x ≤ fuel →
    bit_length_aux fuel x = if x = 0 then 0 else Nat.log2 x + 1 := by
  intro fuel
  induction fuel with
  | zero => intro x hx; interval_cases x; rfl
  | succ f ih =>
    intro x hx
    by_cases h0 : x = 0
    · subst h0; rfl
    · have hx2 : x / 2 ≤ f := by omega
      rw [bit_length_aux, if_neg h0, ih _ hx2, if_neg h0]
      by_cases h1 : x / 2 = 0
      · have : x = 1 := by omega
        subst this
        simp [Nat.log2]
      · have h2 : 2 ≤ x := by omega
        rw [if_neg h1]
        conv_rhs => rw [Nat.log2, if_pos h2]

lemma bit_length_two_pow (t : Nat) : bit_length (2 ^ t) = t + 1 := by
  rw [bit_length, bit_length_aux_eq _ _ le_rfl, if_neg (Nat.pos_iff_ne_zero.mp (Nat.two_pow_pos t)), Nat.log2_two_pow]

lemma testBit_two_mul (x : Nat) : ∀ i, (2 * x).testBit i = if i = 0 then false else x.testBit (i - 1) := by
  intro i
  cases i with
  | zero => simp [Nat.testBit_zero, Nat.mul_mod_right]
  | succ j =>
    simp only [Nat.testBit_succ, Nat.succ_ne_zero, if_false, Nat.add_sub_cancel]
    rw [show (2 * x) / 2 = x by omega]

lemma testBit_two_mul_add_one (x : Nat) : ∀ i,
    (2 * x + 1).testBit i = if i = 0 then true else x.testBit (i - 1) := by
  intro i
  cases i with
  | zero => simp [Nat.testBit_zero, Nat.mul_add_mod]
  | succ j =>
    simp only [Nat.testBit_succ, Nat.succ_ne_zero, if_false, Nat.add_sub_cancel]
    rw [show (2 * x + 1) / 2 = x by omega]

/-- The joint specification of the LS1B extraction: for nonzero `bb` there is
a trailing-zero count `t` with `bb & -bb = 2^t` (`lowest_bit`), bit `t` set,
all lower bits clear, and `bb &&& (bb-1)` equal to `bb` with bit `t`
removed. -/
lemma lowest_bit_spec : ∀ bb : Nat, bb ≠ 0 →
    ∃ t : Nat, lowest_bit bb = 2 ^ t ∧ bb.testBit t = true ∧
      (∀ j, j < t → bb.testBit j = false) ∧
      (∀ j, (bb &&& (bb - 1)).testBit j = (bb.testBit j && ! decide (j = t))) := by
  intro bb
  induction bb using Nat.strong_induction_on with
  | _ bb ih =>
    intro hbb
    rcases Nat.even_or_odd bb with he | ho
    · -- even: bb = 2 * c with c ≠ 0
      obtain ⟨c, hc⟩ := he
      have hcne : c ≠ 0 := by omega
      obtain ⟨t, hpow, htb, hlow, hland⟩ := ih c (by omega) hcne
      have hland2 : bb &&& (bb - 1) = 2 * (c &&& (c - 1)) := by
        apply Nat.eq_of_testBit_eq
        intro i
        rw [Nat.testBit_land, show bb - 1 = 2 * (c - 1) + 1 by omega,
          show bb = 2 * c by omega]
        simp only [testBit_two_mul, testBit_two_mul_add_one]
        cases i with
        | zero => simp
        | succ j => simp [Nat.testBit_land]
      refine ⟨t + 1, ?_, ?_, ?_, ?_⟩
      · rw [lowest_bit, hland2, show bb = 2 * c by omega]
        have hdist : 2 * c ^^^ 2 * (c &&& (c - 1)) = 2 * (c ^^^ (c &&& (c - 1))) := by
          apply Nat.eq_of_testBit_eq
          intro i
          rw [Nat.testBit_xor]
          simp only [testBit_two_mul]
          cases i with
          | zero => simp
          | succ j => simp [Nat.testBit_xor]
        rw [hdist, ← lowest_bit, hpow, Nat.pow_succ, Nat.mul_comm]
      · rw [show bb = 2 * c by omega, testBit_two_mul]
        simpa using htb
      · intro j hj
        rw [show bb = 2 * c by omega, testBit_two_mul]
        cases j with
        | zero => simp
        | succ i => simpa using hlow i (by omega)
      · intro j
        rw [hland2, show bb = 2 * c by omega]
        simp only [testBit_two_mul]
        cases j with
        | zero => simp
        | succ i =>
          simp only [Nat.succ_ne_zero, if_false, Nat.add_sub_cancel]
          rw [hland i]
          congr 1
          simp [Nat.succ_inj]
    · -- odd: t = 0
      obtain ⟨c, hc⟩ := ho
      have hland1 : bb &&& (bb - 1) = bb - 1 := by
        apply Nat.eq_of_testBit_eq
        intro i
        rw [Nat.testBit_land, show bb - 1 = 2 * c by omega, show bb = 2 * c + 1 by omega]
        simp only [testBit_two_mul, testBit_two_mul_add_one]
        cases i with
        | zero => simp
        | succ j => simp
      refine ⟨0, ?_, ?_, ?_, ?_⟩
      · rw [lowest_bit, hland1]
        apply Nat.eq_of_testBit_eq
        intro i
        rw [Nat.testBit_xor, show bb - 1 = 2 * c by omega, show bb = 2 * c + 1 by omega]
        simp only [testBit_two_mul, testBit_two_mul_add_one]
        cases i with
        | zero => simp
        | succ j => simp [Nat.testBit_succ, Nat.zero_testBit, show (1:Nat)/2 = 0 from rfl]
      · rw [show bb = 2 * c + 1 by omega, testBit_two_mul_add_one]
        simp
      · intro j hj; omega
      · intro j
        rw [hland1, show bb - 1 = 2 * c by omega, show bb = 2 * c + 1 by omega]
        simp only [testBit_two_mul, testBit_two_mul_add_one]
        cases j with
        | zero => simp
        | succ i => simp

/-- `ls1b` of a nonzero bitboard is its trailing-zero count. -/
lemma ls1b_eq (bb t : Nat) (hpow : lowest_bit bb = 2 ^ t) : ls1b bb = t := by
  rw [ls1b, hpow, bit_length_two_pow]
  rfl

lemma bitIndicesAux_zero : ∀ fuel, bitIndicesAux fuel 0 = [] := by
  intro fuel; cases fuel <;> rfl

lemma bitIndicesAux_congr : ∀ f1 f2 bb : Nat, bb ≤ f1 → bb ≤ f2 →
    bitIndicesAux f1 bb = bitIndicesAux f2 bb := by
  intro f1
  induction f1 with
  | zero =>
    intro f2 bb h1 h2
    have : bb = 0 := by omega
    subst this
    rw [bitIndicesAux_zero, bitIndicesAux_zero]
  | succ f ih =>
    intro f2 bb h1 h2
    by_cases h0 : bb = 0
    · subst h0; rw [bitIndicesAux_zero, bitIndicesAux_zero]
    · obtain ⟨f2', rfl⟩ : ∃ f2', f2 = f2' + 1 := ⟨f2 - 1, by omega⟩
      rw [bitIndicesAux, bitIndicesAux, if_neg h0, if_neg h0]
      have hlt : bb &&& (bb - 1) ≤ bb - 1 := Nat.and_le_right
      exact congrArg _ (ih f2' _ (by omega) (by omega))

/-- The defining recursion of the LS1B enumeration loop. -/
lemma bitIndices_unfold (bb : Nat) (hbb : bb ≠ 0) :
    bitIndices bb = ls1b bb :: bitIndices (bb &&& (bb - 1)) := by
  obtain ⟨k, rfl⟩ : ∃ k, bb = k + 1 := ⟨bb - 1, by omega⟩
  rw [bitIndices, bitIndicesAux, if_neg hbb, bitIndices]
  congr 1
  apply bitIndicesAux_congr
  · simpa using Nat.and_le_right
  · exact le_rfl

/-- Membership in the LS1B enumeration is exactly having the bit set. -/
lemma bitIndices_mem : ∀ bb j : Nat, j ∈ bitIndices bb ↔ bb.testBit j = true := by
  intro bb
  induction bb using Nat.strong_induction_on with
  | _ bb ih =>
    intro j
    by_cases h0 : bb = 0
    · subst h0
      simp [bitIndices, bitIndicesAux_zero, Nat.zero_testBit]
    · obtain ⟨t, hpow, htb, hlow, hland⟩ := lowest_bit_spec bb h0
      have hlt : bb &&& (bb - 1) < bb :=
        Nat.lt_of_le_of_lt Nat.and_le_right (by omega)
      rw [bitIndices_unfold bb h0, ls1b_eq bb t hpow, List.mem_cons, ih _ hlt, hland j]
      by_cases hj : j = t
      · subst hj; simp [htb]
      · simp [hj]

/-- The LS1B enumeration lists bit indices in strictly increasing order. -/
lemma bitIndices_sorted : ∀ bb : Nat, List.Pairwise (· < ·) (bitIndices bb) := by
  intro bb
  induction bb using Nat.strong_induction_on with
  | _ bb ih =>
    by_cases h0 : bb = 0
    · subst h0
      simp [bitIndices, bitIndicesAux_zero]
    · obtain ⟨t, hpow, htb, hlow, hland⟩ := lowest_bit_spec bb h0
      have hlt : bb &&& (bb - 1) < bb :=
        Nat.lt_of_le_of_lt Nat.and_le_right (by omega)
      rw [bitIndices_unfold bb h0, ls1b_eq bb t hpow, List.pairwise_cons]
      refine ⟨?_, ih _ hlt⟩
      intro j hj
      rw [bitIndices_mem, hland j, Bool.and_eq_true] at hj
      have hjt : j ≠ t := by simpa using hj.2
      rcases Nat.lt_trichotomy t j with h | h | h
      · exact h
      · exact absurd h.symm hjt
      · rw [hlow j h] at hj
        exact absurd hj.1 (by simp)

/-- Bits of a bitboard below `2^64` index real squares. -/
lemma bitIndices_lt_64 (bb : Nat) (hbb : bb < 2 ^ 64) (j : Nat)
    (hj : j ∈ bitIndices bb) : j < 64 := by
  rw [bitIndices_mem] at hj
  by_contra hge
  rw [Nat.testBit_lt_two_pow (lt_of_lt_of_le hbb (Nat.pow_le_pow_right (by norm_num) (by omega)))] at hj
  exact Bool.false_ne_true hj

/-- Every move emitted for a given (source, destination) pair carries that
source and destination. -/
lemma mem_moves_for_shape (st : BoardState) (sd : Nat) (pt : Int) (f t' : Nat) (m : Move)
    (hm : m ∈ (if (pt = P ∧ 7 * 8 ≤ t' ∧ t' ≤ 7 * 8 + 7) ∨ (pt = pB ∧ t' ≤ 7) then
        [Q, R, B, N].filterMap (fun promo =>
          if is_legal st (Move.mk f t' (some (if sd = WHITE then promo else promo + 6)) none)
          then some (Move.mk f t' (some (if sd = WHITE then promo else promo + 6)) none)
          else none)
      else if is_legal st (Move.mk f t' none none)
        then [Move.mk f t' none none] else [])) :
    m.frm = f ∧ m.toSq = t' := by
  split at hm
  · rw [List.mem_filterMap] at hm
    obtain ⟨promo, hpromo, hsome⟩ := hm
    simp only [Option.ite_none_right_eq_some, Option.some.injEq] at hsome
    obtain ⟨hleg, rfl⟩ := hsome
    exact ⟨rfl, rfl⟩
  · split at hm
    · rw [List.mem_singleton] at hm
      subst hm
      exact ⟨rfl, rfl⟩
    · cases hm

/-- C8 (amended): `generate_moves` is the piece-loop move list followed by
the castling moves, and that piece-loop part is sorted by piece type, then
source square, then destination square, on every board whose mailbox mirrors
its bitboards.  Only the appended castling moves fall outside the order. -/
theorem generate_moves_sorted_before_castling (s : BoardState) (oc : Bool)
    (hwf : MailboxMatchesBitboards s) :
    generate_moves s oc = generate_moves_core s oc ++
      (if oc then [] else generate_castling_moves s s.side_to_move) ∧
    List.Pairwise (fun a bq => key_le (move_key s a) (move_key s bq))
      (generate_moves_core s oc) := by
  refine ⟨rfl, ?_⟩
  have hmb : ∀ tn : Nat, tn < 12 → ∀ f ∈ bitIndices (pyGetD s.bitboards (tn : Int) 0),
      s.mailbox.getD f EMPTY = (tn : Int) := by
    intro tn htn f hf
    obtain ⟨hlt, hmbx⟩ := hwf tn htn
    exact hmbx f (bitIndices_lt_64 _ hlt f hf) ((bitIndices_mem _ f).mp hf)
  have hnat : ∀ pt : Int, pt ∈ (if s.side_to_move = WHITE then [P, N, B, R, Q, K]
      else [pB, nB, bB, rB, qB, kB]) → ∃ tn : Nat, tn < 12 ∧ pt = (tn : Int) := by
    split <;> intro pt hpt <;> fin_cases hpt
    · exact ⟨0, by omega, rfl⟩
    · exact ⟨1, by omega, rfl⟩
    · exact ⟨2, by omega, rfl⟩
    · exact ⟨3, by omega, rfl⟩
    · exact ⟨4, by omega, rfl⟩
    · exact ⟨5, by omega, rfl⟩
    · exact ⟨6, by omega, rfl⟩
    · exact ⟨7, by omega, rfl⟩
    · exact ⟨8, by omega, rfl⟩
    · exact ⟨9, by omega, rfl⟩
    · exact ⟨10, by omega, rfl⟩
    · exact ⟨11, by omega, rfl⟩
  unfold generate_moves_core
  dsimp only
  rw [List.pairwise_flatMap]
  constructor
  · -- within one piece type
    intro p_type hp
    obtain ⟨tn, htn, rfl⟩ := hnat p_type hp
    rw [List.pairwise_flatMap]
    constructor
    · -- within one source square
      intro from_sq hf
      rw [List.pairwise_flatMap]
      constructor
      · -- within one destination square: all keys coincide
        intro to_sq ht
        apply List.pairwise_of_forall_mem_list
        intro x hx y hy
        obtain ⟨hxf, hxt⟩ := mem_moves_for_shape s _ _ from_sq to_sq x hx
        obtain ⟨hyf, hyt⟩ := mem_moves_for_shape s _ _ from_sq to_sq y hy
        simp only [key_le, move_key]
        rw [hxf, hxt, hyf, hyt]
        omega
      · -- across destination squares: strictly increasing
        apply List.Pairwise.imp_of_mem ?_ (bitIndices_sorted _)
        intro t1 t2 ht1 ht2 hlt x hx y hy
        obtain ⟨hxf, hxt⟩ := mem_moves_for_shape s _ _ from_sq t1 x hx
        obtain ⟨hyf, hyt⟩ := mem_moves_for_shape s _ _ from_sq t2 y hy
        simp only [key_le, move_key]
        rw [hxf, hxt, hyf, hyt]
        omega
    · -- across source squares: strictly increasing, same piece type
      apply List.Pairwise.imp_of_mem ?_ (bitIndices_sorted _)
      intro f1 f2 hf1 hf2 hlt x hx y hy
      rw [List.mem_flatMap] at hx hy
      obtain ⟨t1, ht1, hx⟩ := hx
      obtain ⟨t2, ht2, hy⟩ := hy
      obtain ⟨hxf, hxt⟩ := mem_moves_for_shape s _ _ f1 t1 x hx
      obtain ⟨hyf, hyt⟩ := mem_moves_for_shape s _ _ f2 t2 y hy
      have hk1 : s.mailbox.getD x.frm EMPTY = (tn : Int) := by
        rw [hxf]; exact hmb tn htn f1 hf1
      have hk2 : s.mailbox.getD y.frm EMPTY = (tn : Int) := by
        rw [hyf]; exact hmb tn htn f2 hf2
      simp only [key_le, move_key]
      rw [hk1, hk2, hxf, hyf]
      omega
  · -- across piece types: ascending piece constants, keys given by the mailbox
    have hptlt : List.Pairwise (fun a bq : Int => a < bq)
        (if s.side_to_move = WHITE then [P, N, B, R, Q, K] else [pB, nB, bB, rB, qB, kB]) := by
      split <;> decide
    apply List.Pairwise.imp_of_mem ?_ hptlt
    intro p1 p2 hp1 hp2 hlt x hx y hy
    obtain ⟨tn1, htn1, rfl⟩ := hnat p1 hp1
    obtain ⟨tn2, htn2, rfl⟩ := hnat p2 hp2
    rw [List.mem_flatMap] at hx hy
    obtain ⟨f1, hf1, hx⟩ := hx
    obtain ⟨f2, hf2, hy⟩ := hy
    rw [List.mem_flatMap] at hx hy
    obtain ⟨t1, ht1, hx⟩ := hx
    obtain ⟨t2, ht2, hy⟩ := hy
    obtain ⟨hxf, hxt⟩ := mem_moves_for_shape s _ _ f1 t1 x hx
    obtain ⟨hyf, hyt⟩ := mem_moves_for_shape s _ _ f2 t2 y hy
    have hk1 : s.mailbox.getD x.frm EMPTY = (tn1 : Int) := by
      rw [hxf]; exact hmb tn1 htn1 f1 hf1
    have hk2 : s.mailbox.getD y.frm EMPTY = (tn2 : Int) := by
      rw [hyf]; exact hmb tn2 htn2 f2 hf2
    simp only [key_le, move_key]
    rw [hk1, hk2]
    left
    exact hlt

/-- C8 counterexample: on `castleDemo` (a coherent board) the move list of
`generate_moves` is not sorted by piece type, source, destination — the
castling moves e1-g1 and e1-c1 are appended after the ordinary king moves
(..., e1-f2, e1-g1, e1-c1), breaking the destination order. -/
theorem generate_moves_not_fully_sorted :
    MailboxMatchesBitboards castleDemo ∧
    ¬ List.Pairwise (fun a bq => key_le (move_key castleDemo a) (move_key castleDemo bq))
      (generate_moves castleDemo false) := by
  constructor <;> decide

/-- Witness for C8 (amended): the initial board is coherent, and its
piece-loop move list is sorted by (piece type, source, destination). -/
theorem generate_moves_sorted_before_castling_witness :
    MailboxMatchesBitboards create_initial_state ∧
    List.Pairwise (fun a bq => key_le (move_key create_initial_state a)
      (move_key create_initial_state bq))
      (generate_moves_core create_initial_state false) := by
  exact ⟨by decide,
    (generate_moves_sorted_before_castling create_initial_state false (by decide)).2⟩

lemma isFin_ofInt (z : Int) : IsFin (Score.ofInt z) := by
  constructor
  · exact WithBot.coe_ne_bot
  · intro h
    rw [Score.ofInt] at h
    have h2 : (z : WithTop Int) = ⊤ := by exact_mod_cast h
    exact WithTop.coe_ne_top h2

lemma isFin_max {a bq : Score} (ha : IsFin a) (hb : IsFin bq) : IsFin (max a bq) := by
  rcases max_choice a bq with h | h <;> rw [h] <;> assumption

lemma isFin_min {a bq : Score} (ha : IsFin a) (hb : IsFin bq) : IsFin (min a bq) := by
  rcases min_choice a bq with h | h <;> rw [h] <;> assumption

lemma maximaxLoop_isFin (s : BoardState) (d : Nat) (beta : Score)
    (hch : ∀ (mv : Move) (a bq : Score), IsFin (minimax (make_move s mv false) d a bq false)) :
    ∀ (l : List Move) (me alpha : Score), (IsFin me ∨ (me = ⊥ ∧ l ≠ [])) →
    IsFin (maximaxLoop s d beta l me alpha) := by
  intro l
  induction l with
  | nil =>
    intro me alpha hme
    rcases hme with h | ⟨_, hne⟩
    · simpa [maximaxLoop] using h
    · exact absurd rfl hne
  | cons mv rest ih =>
    intro me alpha hme
    rw [maximaxLoop]
    have hg := hch mv alpha beta
    have hme' : IsFin (max me (minimax (make_move s mv false) d alpha beta false)) := by
      rcases hme with h | ⟨rfl, _⟩
      · exact isFin_max h hg
      · rwa [max_eq_right bot_le]
    split
    · exact hme'
    · exact ih _ _ (Or.inl hme')

lemma minimaxLoop_isFin (s : BoardState) (d : Nat) (alpha : Score)
    (hch : ∀ (mv : Move) (a bq : Score), IsFin (minimax (make_move s mv false) d a bq true)) :
    ∀ (l : List Move) (me beta : Score), (IsFin me ∨ (me = ⊤ ∧ l ≠ [])) →
    IsFin (minimaxLoop s d alpha l me beta) := by
  intro l
  induction l with
  | nil =>
    intro me beta hme
    rcases hme with h | ⟨_, hne⟩
    · simpa [minimaxLoop] using h
    · exact absurd rfl hne
  | cons mv rest ih =>
    intro me beta hme
    rw [minimaxLoop]
    have hg := hch mv alpha beta
    have hme' : IsFin (min me (minimax (make_move s mv false) d alpha beta true)) := by
      rcases hme with h | ⟨rfl, _⟩
      · exact isFin_min h hg
      · rwa [min_eq_right le_top]
    split
    · exact hme'
    · exact ih _ _ (Or.inl hme')

/-- `minimax` always returns a finite (integer-valued) score. -/
lemma minimax_isFin : ∀ (d : Nat) (s : BoardState) (a bq : Score) (mx : Bool),
    IsFin (minimax s d a bq mx) := by
  intro d
  induction d with
  | zero =>
    intro s a bq mx
    rw [minimax, dif_pos (Or.inl rfl)]
    exact isFin_ofInt _
  | succ dd ih =>
    intro s a bq mx
    rw [minimax]
    split
    · exact isFin_ofInt _
    · dsimp only
      split
      · split
        · split <;> exact isFin_ofInt _
        · exact isFin_ofInt _
      · rename_i hne
        have hnil : generate_moves s false ≠ [] := by
          simpa [List.isEmpty_iff] using hne
        split
        · exact maximaxLoop_isFin s dd bq (fun mv a' b' => ih _ a' b' false) _ ⊥ a
            (Or.inr ⟨rfl, hnil⟩)
        · exact minimaxLoop_isFin s dd a (fun mv a' b' => ih _ a' b' true) _ ⊤ bq
            (Or.inr ⟨rfl, hnil⟩)

lemma foldMaxBy_max (f : Move → Score) :
    ∀ (l : List Move) (a : Score), foldMaxBy f l a = max a (foldMaxBy f l ⊥) := by
  intro l
  induction l with
  | nil => intro a; rw [foldMaxBy, foldMaxBy, max_eq_left bot_le]
  | cons mv rest ih =>
    intro a
    rw [foldMaxBy, foldMaxBy, ih (max a _), ih (max ⊥ _), max_eq_right bot_le, max_assoc]

lemma foldMinBy_min (f : Move → Score) :
    ∀ (l : List Move) (a : Score), foldMinBy f l a = min a (foldMinBy f l ⊤) := by
  intro l
  induction l with
  | nil => intro a; rw [foldMinBy, foldMinBy, min_eq_left le_top]
  | cons mv rest ih =>
    intro a
    rw [foldMinBy, foldMinBy, ih (min a _), ih (min ⊤ _), min_eq_right le_top, min_assoc]

lemma le_foldMaxBy (f : Move → Score) (l : List Move) (a : Score) : a ≤ foldMaxBy f l a := by
  rw [foldMaxBy_max]
  exact le_max_left _ _

lemma foldMinBy_le (f : Move → Score) (l : List Move) (a : Score) : foldMinBy f l a ≤ a := by
  rw [foldMinBy_min]
  exact min_le_left _ _

lemma foldMaxBy_mono (f : Move → Score) (l : List Move) {a bq : Score}
    (hab : a ≤ bq) : foldMaxBy f l a ≤ foldMaxBy f l bq := by
  rw [foldMaxBy_max, foldMaxBy_max f l bq]
  exact max_le_max hab le_rfl

lemma foldMinBy_mono (f : Move → Score) (l : List Move) {a bq : Score}
    (hab : a ≤ bq) : foldMinBy f l a ≤ foldMinBy f l bq := by
  rw [foldMinBy_min, foldMinBy_min f l bq]
  exact min_le_min hab le_rfl

lemma maximaxLoop_le_self (s : BoardState) (d : Nat) (beta : Score) :
    ∀ (l : List Move) (me alpha : Score), me ≤ maximaxLoop s d beta l me alpha := by
  intro l
  induction l with
  | nil => intro me alpha; rw [maximaxLoop]
  | cons mv rest ih =>
    intro me alpha
    rw [maximaxLoop]
    split
    · exact le_max_left _ _
    · exact le_trans (le_max_left _ _) (ih _ _)

lemma minimaxLoop_self_le (s : BoardState) (d : Nat) (alpha : Score) :
    ∀ (l : List Move) (me beta : Score), minimaxLoop s d alpha l me beta ≤ me := by
  intro l
  induction l with
  | nil => intro me beta; rw [minimaxLoop]
  | cons mv rest ih =>
    intro me beta
    rw [minimaxLoop]
    split
    · exact min_le_left _ _
    · exact le_trans (ih _ _) (min_le_left _ _)

/-- Knuth-Moore fail-soft bounds for the maximizing alpha-beta loop, given
the bounds for its children: a result at or below alpha is an upper bound on
the plain fold, a result reaching beta is a lower bound, and a result
strictly inside the window is exact. -/
lemma maximaxLoop_km (s : BoardState) (d : Nat) (beta : Score) (f : Move → Score)
    (hch : ∀ (mv : Move) (a bq : Score), a < bq →
      (minimax (make_move s mv false) d a bq false ≤ a →
        f mv ≤ minimax (make_move s mv false) d a bq false) ∧
      (bq ≤ minimax (make_move s mv false) d a bq false →
        minimax (make_move s mv false) d a bq false ≤ f mv) ∧
      (a < minimax (make_move s mv false) d a bq false →
        minimax (make_move s mv false) d a bq false < bq →
        minimax (make_move s mv false) d a bq false = f mv)) :
    ∀ (l : List Move) (me alpha : Score), me ≤ alpha → alpha < beta →
      (maximaxLoop s d beta l me alpha ≤ alpha →
        foldMaxBy f l me ≤ maximaxLoop s d beta l me alpha) ∧
      (beta ≤ maximaxLoop s d beta l me alpha →
        maximaxLoop s d beta l me alpha ≤ foldMaxBy f l me) ∧
      (alpha < maximaxLoop s d beta l me alpha →
        maximaxLoop s d beta l me alpha < beta →
        maximaxLoop s d beta l me alpha = foldMaxBy f l me) := by
  intro l
  induction l with
  | nil =>
    intro me alpha hme hab
    rw [maximaxLoop, foldMaxBy]
    refine ⟨fun _ => le_rfl, fun hba => absurd hab (not_lt.mpr (hba.trans hme)),
      fun hlt _ => absurd hlt (not_lt.mpr hme)⟩
  | cons mv rest ih =>
    intro me alpha hme hab
    rw [maximaxLoop, foldMaxBy]
    obtain ⟨c1, c2, c3⟩ := hch mv alpha beta hab
    set g := minimax (make_move s mv false) d alpha beta false with hgdef
    split
    · -- cutoff: beta ≤ max alpha g
      rename_i hbr
      have hbg : beta ≤ g := by
        rcases max_cases alpha g with ⟨hm, _⟩ | ⟨hm, _⟩
        · rw [hm] at hbr
          exact absurd hab (not_lt.mpr hbr)
        · rwa [hm] at hbr
      have hgv : g ≤ f mv := c2 hbg
      have hA : max me g = g := max_eq_right (hme.trans (hab.le.trans hbg))
      refine ⟨?_, ?_, ?_⟩
      · intro hle
        have hgt : alpha < max me g := lt_of_lt_of_le (lt_of_lt_of_le hab hbg) (le_max_right _ _)
        exact absurd hle (not_le.mpr hgt)
      · intro _
        rw [hA]
        exact le_trans (le_trans hgv (le_max_right me (f mv))) (le_foldMaxBy _ _ _)
      · intro _ hlt2
        rw [hA] at hlt2
        exact absurd hlt2 (not_lt.mpr hbg)
    · -- no cutoff: max alpha g < beta
      rename_i hbr
      have hbr' : max alpha g < beta := not_le.mp hbr
      have hglt : g < beta := lt_of_le_of_lt (le_max_right alpha g) hbr'
      by_cases hga : g ≤ alpha
      · -- child failed low: its plain value is at most g
        have halpha' : max alpha g = alpha := max_eq_left hga
        rw [halpha']
        have hv : f mv ≤ g := c1 hga
        have hmea : max me g ≤ alpha := max_le hme hga
        obtain ⟨i1, i2, i3⟩ := ih (max me g) alpha hmea hab
        have hVV' : foldMaxBy f rest (max me (f mv)) ≤ foldMaxBy f rest (max me g) :=
          foldMaxBy_mono f rest (max_le_max le_rfl hv)
        refine ⟨?_, ?_, ?_⟩
        · intro hle
          exact le_trans hVV' (i1 hle)
        · intro hge
          have hAV' := i2 hge
          rw [foldMaxBy_max] at hAV'
          have h2 : max me g < maximaxLoop s d beta rest (max me g) alpha :=
            lt_of_le_of_lt hmea (lt_of_lt_of_le hab hge)
          have hAM : maximaxLoop s d beta rest (max me g) alpha ≤ foldMaxBy f rest ⊥ := by
            rcases max_cases (max me g) (foldMaxBy f rest ⊥) with ⟨hmx, _⟩ | ⟨hmx, _⟩
            · rw [hmx] at hAV'
              exact absurd h2 (not_lt.mpr hAV')
            · rwa [hmx] at hAV'
          rw [foldMaxBy_max]
          exact le_trans hAM (le_max_right _ _)
        · intro hgt hlt
          have hAeq := i3 hgt hlt
          rw [foldMaxBy_max] at hAeq
          have h2 : max me g < maximaxLoop s d beta rest (max me g) alpha :=
            lt_of_le_of_lt hmea hgt
          have hAM : maximaxLoop s d beta rest (max me g) alpha = foldMaxBy f rest ⊥ := by
            rcases max_cases (max me g) (foldMaxBy f rest ⊥) with ⟨hmx, _⟩ | ⟨hmx, _⟩
            · rw [hmx] at hAeq
              rw [hAeq] at h2
              exact absurd h2 (lt_irrefl _)
            · rwa [hmx] at hAeq
          have hlt3 : max me (f mv) ≤ foldMaxBy f rest ⊥ := by
            rw [← hAM]
            exact le_of_lt (lt_of_le_of_lt (max_le hme (hv.trans hga)) hgt)
          rw [foldMaxBy_max, max_eq_right hlt3]
          exact hAM
      · -- child exact: alpha < g < beta
        push_neg at hga
        have hgeq : g = f mv := c3 hga hglt
        have halpha' : max alpha g = g := max_eq_right hga.le
        rw [halpha']
        have hmeg : max me g ≤ g := max_le (hme.trans hga.le) le_rfl
        obtain ⟨i1, i2, i3⟩ := ih (max me g) g hmeg (halpha' ▸ hbr')
        have hVeq : foldMaxBy f rest (max me (f mv)) = foldMaxBy f rest (max me g) := by
          rw [hgeq]
        have hgle : g ≤ maximaxLoop s d beta rest (max me g) g :=
          le_trans (le_max_right me g) (maximaxLoop_le_self s d beta rest (max me g) g)
        refine ⟨?_, ?_, ?_⟩
        · intro hle
          exact absurd (lt_of_lt_of_le hga (hgle.trans hle)) (lt_irrefl _)
        · intro hge
          rw [hVeq]
          exact i2 hge
        · intro hgt hlt
          rw [hVeq]
          rcases eq_or_lt_of_le hgle with heq | hgA
          · apply le_antisymm
            · rw [← heq]
              exact le_trans (le_max_right me g) (le_foldMaxBy f rest (max me g))
            · exact i1 (le_of_eq heq.symm)
          · exact i3 hgA hlt

/-- Knuth-Moore fail-soft bounds for the minimizing alpha-beta loop. -/
lemma minimaxLoop_km (s : BoardState) (d : Nat) (alpha : Score) (f : Move → Score)
    (hch : ∀ (mv : Move) (a bq : Score), a < bq →
      (minimax (make_move s mv false) d a bq true ≤ a →
        f mv ≤ minimax (make_move s mv false) d a bq true) ∧
      (bq ≤ minimax (make_move s mv false) d a bq true →
        minimax (make_move s mv false) d a bq true ≤ f mv) ∧
      (a < minimax (make_move s mv false) d a bq true →
        minimax (make_move s mv false) d a bq true < bq →
        minimax (make_move s mv false) d a bq true = f mv)) :
    ∀ (l : List Move) (me beta : Score), beta ≤ me → alpha < beta →
      (minimaxLoop s d alpha l me beta ≤ alpha →
        foldMinBy f l me ≤ minimaxLoop s d alpha l me beta) ∧
      (beta ≤ minimaxLoop s d alpha l me beta →
        minimaxLoop s d alpha l me beta ≤ foldMinBy f l me) ∧
      (alpha < minimaxLoop s d alpha l me beta →
        minimaxLoop s d alpha l me beta < beta →
        minimaxLoop s d alpha l me beta = foldMinBy f l me) := by
  intro l
  induction l with
  | nil =>
    intro me beta hme hab
    rw [minimaxLoop, foldMinBy]
    refine ⟨fun hle => absurd hab (not_lt.mpr (hme.trans hle)), fun _ => le_rfl,
      fun _ hlt => absurd hlt (not_lt.mpr hme)⟩
  | cons mv rest ih =>
    intro me beta hme hab
    rw [minimaxLoop, foldMinBy]
    obtain ⟨c1, c2, c3⟩ := hch mv alpha beta hab
    set g := minimax (make_move s mv false) d alpha beta true with hgdef
    split
    · -- cutoff: min beta g ≤ alpha
      rename_i hbr
      have hga : g ≤ alpha := by
        rcases min_cases beta g with ⟨hm, _⟩ | ⟨hm, _⟩
        · rw [hm] at hbr
          exact absurd hab (not_lt.mpr hbr)
        · rwa [hm] at hbr
      have hvg : f mv ≤ g := c1 hga
      have hA : min me g = g := min_eq_right ((hga.trans hab.le).trans hme)
      refine ⟨?_, ?_, ?_⟩
      · intro _
        rw [hA]
        exact le_trans (foldMinBy_le _ _ _) (le_trans (min_le_right me (f mv)) hvg)
      · intro hge
        have hlt : min me g ≤ alpha := (min_le_right me g).trans hga
        exact absurd hge (not_le.mpr (lt_of_le_of_lt hlt hab))
      · intro hgt _
        exact absurd hgt (not_lt.mpr ((min_le_right me g).trans hga))
    · -- no cutoff: alpha < min beta g
      rename_i hbr
      have hbr' : alpha < min beta g := not_le.mp hbr
      have hggt : alpha < g := lt_of_lt_of_le hbr' (min_le_right beta g)
      by_cases hgb : beta ≤ g
      · -- child failed high: its plain value is at least g
        have hbeta' : min beta g = beta := min_eq_left hgb
        rw [hbeta']
        have hv : g ≤ f mv := c2 hgb
        have hmeb : beta ≤ min me g := le_min hme hgb
        obtain ⟨i1, i2, i3⟩ := ih (min me g) beta hmeb hab
        have hVV' : foldMinBy f rest (min me g) ≤ foldMinBy f rest (min me (f mv)) :=
          foldMinBy_mono f rest (min_le_min le_rfl hv)
        refine ⟨?_, ?_, ?_⟩
        · intro hle
          have hAV' := i1 hle
          rw [foldMinBy_min] at hAV'
          have h2 : minimaxLoop s d alpha rest (min me g) beta < min me g :=
            lt_of_le_of_lt hle (lt_of_lt_of_le hab hmeb)
          have hAM : foldMinBy f rest ⊤ ≤ minimaxLoop s d alpha rest (min me g) beta := by
            rcases min_cases (min me g) (foldMinBy f rest ⊤) with ⟨hmx, _⟩ | ⟨hmx, _⟩
            · rw [hmx] at hAV'
              exact absurd h2 (not_lt.mpr hAV')
            · rwa [hmx] at hAV'
          rw [foldMinBy_min]
          exact le_trans (min_le_right _ _) hAM
        · intro hge
          exact le_trans (i2 hge) hVV'
        · intro hgt hlt
          have hAeq := i3 hgt hlt
          rw [foldMinBy_min] at hAeq
          have h2 : minimaxLoop s d alpha rest (min me g) beta < min me g :=
            lt_of_lt_of_le hlt hmeb
          have hAM : minimaxLoop s d alpha rest (min me g) beta = foldMinBy f rest ⊤ := by
            rcases min_cases (min me g) (foldMinBy f rest ⊤) with ⟨hmx, _⟩ | ⟨hmx, _⟩
            · rw [hmx] at hAeq
              rw [hAeq] at h2
              exact absurd h2 (lt_irrefl _)
            · rwa [hmx] at hAeq
          have hlt3 : foldMinBy f rest ⊤ ≤ min me (f mv) := by
            rw [← hAM]
            exact le_of_lt (lt_of_lt_of_le hlt (le_min hme (hgb.trans hv)))
          rw [foldMinBy_min, min_eq_right hlt3]
          exact hAM
      · -- child exact: alpha < g < beta
        push_neg at hgb
        have hgeq : g = f mv := c3 hggt hgb
        have hbeta' : min beta g = g := min_eq_right hgb.le
        rw [hbeta']
        have hmeg : g ≤ min me g := le_min (hgb.le.trans hme) le_rfl
        obtain ⟨i1, i2, i3⟩ := ih (min me g) g hmeg (hbeta' ▸ hbr')
        have hVeq : foldMinBy f rest (min me (f mv)) = foldMinBy f rest (min me g) := by
          rw [hgeq]
        have hgle : minimaxLoop s d alpha rest (min me g) g ≤ g :=
          le_trans (minimaxLoop_self_le s d alpha rest (min me g) g) (min_le_right me g)
        refine ⟨?_, ?_, ?_⟩
        · intro hle
          rw [hVeq]
          exact i1 hle
        · intro hge
          exact absurd (lt_of_le_of_lt (hge.trans hgle) hgb) (lt_irrefl _)
        · intro hgt hlt
          rw [hVeq]
          rcases eq_or_lt_of_le hgle with heq | hAg
          · apply le_antisymm (i2 (le_of_eq heq.symm))
            exact le_trans (le_trans (foldMinBy_le f rest (min me g)) (min_le_right me g)) heq.ge
          · exact i3 hgt hAg

/-- Knuth-Moore at every depth: the alpha-beta `minimax` fails soft against
the pruning-free `pminimax` — below alpha it upper-bounds it, at or above
beta it lower-bounds it, and strictly inside the window it equals it. -/
lemma minimax_km : ∀ (d : Nat) (s : BoardState) (alpha beta : Score) (mx : Bool),
    alpha < beta →
    (minimax s d alpha beta mx ≤ alpha → pminimax d s mx ≤ minimax s d alpha beta mx) ∧
    (beta ≤ minimax s d alpha beta mx → minimax s d alpha beta mx ≤ pminimax d s mx) ∧
    (alpha < minimax s d alpha beta mx → minimax s d alpha beta mx < beta →
      minimax s d alpha beta mx = pminimax d s mx) := by
  intro d
  induction d with
  | zero =>
    intro s alpha beta mx hab
    rw [minimax, dif_pos (Or.inl rfl), pminimax]
    exact ⟨fun _ => le_rfl, fun _ => le_rfl, fun _ _ => rfl⟩
  | succ dd ih =>
    intro s alpha beta mx hab
    rw [minimax, pminimax]
    by_cases hst : s.game_status ≠ .ongoing
    · rw [dif_pos (Or.inr hst), if_pos hst]
      exact ⟨fun _ => le_rfl, fun _ => le_rfl, fun _ _ => rfl⟩
    · rw [dif_neg (fun hor => hor.elim (Nat.succ_ne_zero dd) hst), if_neg hst]
      dsimp only
      by_cases hmv : (generate_moves s false).isEmpty
      · rw [if_pos hmv, if_pos hmv]
        split <;> [skip; exact ⟨fun _ => le_rfl, fun _ => le_rfl, fun _ _ => rfl⟩]
        cases mx <;> exact ⟨fun _ => le_rfl, fun _ => le_rfl, fun _ _ => rfl⟩
      · rw [if_neg hmv, if_neg hmv]
        cases mx with
        | true =>
          simp only [if_true, Nat.succ_sub_one]
          exact maximaxLoop_km s dd beta
            (fun mv => pminimax dd (make_move s mv false) false)
            (fun mv a' b' hab' => ih (make_move s mv false) a' b' false hab')
            (generate_moves s false) ⊥ alpha bot_le hab
        | false =>
          simp only [if_false, Nat.succ_sub_one, Bool.false_eq_true]
          exact minimaxLoop_km s dd alpha
            (fun mv => pminimax dd (make_move s mv false) true)
            (fun mv a' b' hab' => ih (make_move s mv false) a' b' true hab')
            (generate_moves s false) ⊤ beta le_top hab

/-- The maximizing root loop: with the invariant `best score = alpha`, the
final best score equals the plain max fold of the pruning-free child values. -/
lemma rootLoop_score_max (s : BoardState) (depth : Nat) :
    ∀ (l : List Move) (bm : Option Move) (alpha : Score), IsFin alpha ∨ alpha = ⊥ →
      (rootLoop s depth true l (bm, alpha) alpha ⊤).2 =
        foldMaxBy (fun mv => pminimax (depth - 1) (make_move s mv false) false) l alpha := by
  intro l
  induction l with
  | nil =>
    intro bm alpha _
    rw [rootLoop, foldMaxBy]
  | cons mv rest ih =>
    intro bm alpha halpha
    rw [rootLoop, foldMaxBy]
    set g := minimax (make_move s mv false) (depth - 1) alpha ⊤ (!true) with hgdef
    have hab : alpha < ⊤ := by
      rcases halpha with hfin | rfl
      · exact lt_top_iff_ne_top.mpr hfin.2
      · exact bot_lt_top
    have hgfin : IsFin g := minimax_isFin (depth - 1) _ alpha ⊤ false
    obtain ⟨c1, c2, c3⟩ := minimax_km (depth - 1) (make_move s mv false) alpha ⊤ false hab
    simp only [if_true]
    by_cases hcmp : alpha < g
    · have hgeq : g = pminimax (depth - 1) (make_move s mv false) false :=
        c3 hcmp (lt_top_iff_ne_top.mpr hgfin.2)
      rw [if_pos hcmp]
      have hmax : max alpha g = g := max_eq_right hcmp.le
      rw [hmax]
      rw [ih (some mv) g (Or.inl hgfin)]
      rw [← hgeq, hmax]
    · rw [if_neg hcmp]
      have hga : g ≤ alpha := not_lt.mp hcmp
      have hv : pminimax (depth - 1) (make_move s mv false) false ≤ g := c1 hga
      have hmax : max alpha g = alpha := max_eq_left hga
      rw [hmax, ih bm alpha halpha]
      have hmaxv : max alpha (pminimax (depth - 1) (make_move s mv false) false) = alpha :=
        max_eq_left (hv.trans hga)
      rw [hmaxv]

/-- The minimizing root loop, dually. -/
lemma rootLoop_score_min (s : BoardState) (depth : Nat) :
    ∀ (l : List Move) (bm : Option Move) (beta : Score), IsFin beta ∨ beta = ⊤ →
      (rootLoop s depth false l (bm, beta) ⊥ beta).2 =
        foldMinBy (fun mv => pminimax (depth - 1) (make_move s mv false) true) l beta := by
  intro l
  induction l with
  | nil =>
    intro bm beta _
    rw [rootLoop, foldMinBy]
  | cons mv rest ih =>
    intro bm beta hbeta
    rw [rootLoop, foldMinBy]
    set g := minimax (make_move s mv false) (depth - 1) ⊥ beta (!false) with hgdef
    have hab : ⊥ < beta := by
      rcases hbeta with hfin | rfl
      · exact bot_lt_iff_ne_bot.mpr hfin.1
      · exact bot_lt_top
    have hgfin : IsFin g := minimax_isFin (depth - 1) _ ⊥ beta true
    obtain ⟨c1, c2, c3⟩ := minimax_km (depth - 1) (make_move s mv false) ⊥ beta true hab
    simp only [if_false, Bool.false_eq_true]
    by_cases hcmp : g < beta
    · have hgeq : g = pminimax (depth - 1) (make_move s mv false) true :=
        c3 (bot_lt_iff_ne_bot.mpr hgfin.1) hcmp
      rw [if_pos hcmp]
      have hmin : min beta g = g := min_eq_right hcmp.le
      rw [hmin]
      rw [ih (some mv) g (Or.inl hgfin)]
      rw [← hgeq, hmin]
    · rw [if_neg hcmp]
      have hgb : beta ≤ g := not_lt.mp hcmp
      have hv : g ≤ pminimax (depth - 1) (make_move s mv false) true := c2 hgb
      have hmin : min beta g = beta := min_eq_left hgb
      rw [hmin, ih bm beta hbeta]
      have hminv : min beta (pminimax (depth - 1) (make_move s mv false) true) = beta :=
        min_eq_left (hgb.trans hv)
      rw [hminv]

lemma foldMaxBy_eq_foldl (f : Move → Score) :
    ∀ (l : List Move) (a : Score), foldMaxBy f l a = l.foldl (fun acc mv => max acc (f mv)) a := by
  intro l
  induction l with
  | nil => intro a; rfl
  | cons mv rest ih => intro a; rw [foldMaxBy, List.foldl_cons, ih]

lemma foldMinBy_eq_foldl (f : Move → Score) :
    ∀ (l : List Move) (a : Score), foldMinBy f l a = l.foldl (fun acc mv => min acc (f mv)) a := by
  intro l
  induction l with
  | nil => intro a; rfl
  | cons mv rest ih => intro a; rw [foldMinBy, List.foldl_cons, ih]

lemma foldMaxBy_perm (f : Move → Score) {l₁ l₂ : List Move} (h : l₁.Perm l₂) (a : Score) :
    foldMaxBy f l₁ a = foldMaxBy f l₂ a := by
  rw [foldMaxBy_eq_foldl, foldMaxBy_eq_foldl]
  haveI : RightCommutative (fun (acc : Score) (mv : Move) => max acc (f mv)) :=
    ⟨fun bz a₁ a₂ => by rw [max_assoc, max_comm (f a₁), ← max_assoc]⟩
  exact h.foldl_eq a

lemma foldMinBy_perm (f : Move → Score) {l₁ l₂ : List Move} (h : l₁.Perm l₂) (a : Score) :
    foldMinBy f l₁ a = foldMinBy f l₂ a := by
  rw [foldMinBy_eq_foldl, foldMinBy_eq_foldl]
  haveI : RightCommutative (fun (acc : Score) (mv : Move) => min acc (f mv)) :=
    ⟨fun bz a₁ a₂ => by rw [min_assoc, min_comm (f a₁), ← min_assoc]⟩
  exact h.foldl_eq a

/-- C5: the best score the root search settles on does not depend on the
order of the root candidate move list — any two permutations (any two
outcomes of `random.shuffle`) produce the same best score; only which tied
move is surfaced may differ.  (Depth ≥ 1 matches every call the source
makes; alpha-beta never prunes away a value that could change the root
maximum, by the Knuth-Moore bounds above.) -/
theorem root_best_score_shuffle_invariant (s : BoardState) (depth : Nat)
    (_hdep : 1 ≤ depth) (l₁ l₂ : List Move) (hperm : l₁.Perm l₂) :
    (get_best_move_from s depth l₁).2 = (get_best_move_from s depth l₂).2 := by
  unfold get_best_move_from
  by_cases hemp : l₁.isEmpty
  · have h1 : l₁ = [] := List.isEmpty_iff.mp hemp
    rw [h1] at hperm
    have h2 : l₂ = [] := hperm.symm.eq_nil
    rw [if_pos hemp, if_pos (List.isEmpty_iff.mpr h2)]
  · have h2 : ¬ l₂.isEmpty := by
      intro hc
      rw [List.isEmpty_iff.mp hc] at hperm
      exact hemp (List.isEmpty_iff.mpr hperm.eq_nil)
    rw [if_neg hemp, if_neg h2]
    dsimp only
    by_cases hside : s.side_to_move = WHITE
    · rw [show (decide (s.side_to_move = WHITE)) = true from decide_eq_true hside,
        if_pos hside]
      rw [rootLoop_score_max s depth l₁ none ⊥ (Or.inr rfl),
        rootLoop_score_max s depth l₂ none ⊥ (Or.inr rfl)]
      exact foldMaxBy_perm _ hperm ⊥
    · rw [show (decide (s.side_to_move = WHITE)) = false from decide_eq_false hside,
        if_neg hside]
      rw [rootLoop_score_min s depth l₁ none ⊤ (Or.inr rfl),
        rootLoop_score_min s depth l₂ none ⊤ (Or.inr rfl)]
      exact foldMinBy_perm _ hperm ⊤

/-- Witness for C5: two orderings of a two-move root list from the initial
position yield the same best score at depth 1. -/
theorem root_best_score_shuffle_invariant_witness :
    (1 : Nat) ≤ 1 ∧
    (([⟨8, 16, none, none⟩, ⟨9, 17, none, none⟩] : List Move).Perm
      [⟨9, 17, none, none⟩, ⟨8, 16, none, none⟩]) ∧
    (get_best_move_from create_initial_state 1
        [⟨8, 16, none, none⟩, ⟨9, 17, none, none⟩]).2 =
      (get_best_move_from create_initial_state 1
        [⟨9, 17, none, none⟩, ⟨8, 16, none, none⟩]).2 :=
  ⟨le_rfl, by decide,
    root_best_score_shuffle_invariant create_initial_state 1 le_rfl _ _ (by decide)⟩

lemma make_move_true_eq_core (s : BoardState) (m : Move) :
    make_move s m true = make_move_core s m := rfl

lemma make_move_mailbox_eq_core (s : BoardState) (m : Move) (t : Bool) :
    (make_move s m t).mailbox = (make_move_core s m).mailbox := by
  unfold make_move
  split
  · rfl
  · split <;> (dsimp only) <;> split <;> (try split) <;> rfl

lemma make_move_history_none (s : BoardState) (m : Move) (t : Bool)
    (hs : s.history = none) : (make_move s m t).history = none := by
  unfold make_move
  split
  · rfl
  · rw [hs]
    dsimp only
    split <;> (try split) <;> rfl

lemma make_move_history_some (s : BoardState) (m : Move) (hh0 : List (List Int))
    (hs : s.history = some hh0) : (make_move s m false).history =
      some (hh0 ++ [(make_move_core s m).mailbox]) := by
  unfold make_move
  rw [if_neg (by simp), hs]
  dsimp only
  split <;> (try split) <;> rfl

/-- Reads below the frontier are unaffected by a heap extension that agrees
there. -/
lemma derefState_congr (h h' : Heap) (st : PyBoardState)
    (hfr : ∀ a, a < h.next → h'.data a = h.data a) (hwf : HeapWF h st) :
    derefState h' st = derefState h st := by
  obtain ⟨hbb, hocc, hmb, hhist⟩ := hwf
  have h1 : readNats h' st.bbA = readNats h st.bbA := by
    unfold readNats; rw [hfr _ hbb]
  have h2 : readNats h' st.occA = readNats h st.occA := by
    unfold readNats; rw [hfr _ hocc]
  have h3 : readInts h' st.mbA = readInts h st.mbA := by
    unfold readInts; rw [hfr _ hmb]
  have h4 : st.histA.map (fun ha => (readRefs h' ha).map (readInts h')) =
      st.histA.map (fun ha => (readRefs h ha).map (readInts h)) := by
    cases hh : st.histA with
    | none => rfl
    | some ha =>
      rw [hh] at hhist
      obtain ⟨hha, hrs⟩ := hhist
      have h5 : readRefs h' ha = readRefs h ha := by
        unfold readRefs; rw [hfr _ hha]
      simp only [Option.map_some']
      rw [h5]
      congr 1
      apply List.map_congr_left
      intro r hr
      unfold readInts
      rw [hfr _ (hrs r hr)]
  unfold derefState
  rw [h1, h2, h3, h4]

lemma make_move_heap_frame (h : Heap) (st : PyBoardState) (mv : Move) (t : Bool) :
    ∀ a, a < h.next → ((make_move_heap h st mv t).1).data a = h.data a := by
  intro a ha
  unfold make_move_heap
  dsimp only
  split
  · dsimp only
    rw [if_neg (by omega), if_neg (by omega), if_neg (by omega)]
  · split
    · dsimp only
      rw [if_neg (by omega), if_neg (by omega), if_neg (by omega), if_neg (by omega),
        if_neg (by omega)]
    · dsimp only
      rw [if_neg (by omega), if_neg (by omega), if_neg (by omega)]

lemma make_move_heap_next (h : Heap) (st : PyBoardState) (mv : Move) (t : Bool) :
    h.next ≤ ((make_move_heap h st mv t).1).next := by
  unfold make_move_heap
  dsimp only
  split
  · dsimp only
    omega
  · split <;> (dsimp only) <;> omega

lemma mk_eq_of_hist (s : BoardState) (H : Option (List (List Int))) (hH : H = s.history) :
    BoardState.mk s.bitboards s.occupancies s.mailbox s.side_to_move s.castling_rights
      s.en_passant s.halfmove s.fullmove s.game_status s.selected_square H = s := by
  rw [hH]

lemma make_move_heap_deref (h : Heap) (st : PyBoardState) (mv : Move) (t : Bool)
    (hwf : HeapWF h st) :
    derefState (make_move_heap h st mv t).1 (make_move_heap h st mv t).2 =
      make_move (derefState h st) mv t := by
  unfold make_move_heap
  dsimp only
  split
  · -- test-only apply
    rename_i ht
    subst ht
    unfold derefState readNats readInts
    try dsimp only
    rw [if_pos rfl, if_neg (show h.next + 1 ≠ h.next by omega), if_pos rfl,
      if_neg (show h.next + 2 ≠ h.next by omega),
      if_neg (show h.next + 2 ≠ h.next + 1 by omega), if_pos rfl]
    rfl
  · rename_i ht
    rw [Bool.not_eq_true] at ht
    subst ht
    split
    · -- full apply with a history list
      rename_i ha heq
      obtain ⟨hb1, hb2, hb3, hhist⟩ := hwf
      rw [heq] at hhist
      obtain ⟨hha, hrs⟩ := hhist
      unfold readRefs at hrs
      set v := derefState h st with hvdef
      have hv : v.history = some ((readRefs h ha).map (readInts h)) := by
        rw [hvdef]
        unfold derefState
        rw [heq]
        rfl
      unfold derefState readNats readInts readRefs
      try dsimp only
      rw [Option.map_some']
      try dsimp only
      rw [if_neg (show h.next ≠ h.next + 3 by omega),
        if_neg (show h.next ≠ h.next + 4 by omega), if_pos rfl,
        if_neg (show h.next + 1 ≠ h.next + 3 by omega),
        if_neg (show h.next + 1 ≠ h.next + 4 by omega),
        if_neg (show h.next + 1 ≠ h.next by omega), if_pos rfl,
        if_neg (show h.next + 2 ≠ h.next + 3 by omega),
        if_neg (show h.next + 2 ≠ h.next + 4 by omega),
        if_neg (show h.next + 2 ≠ h.next by omega),
        if_neg (show h.next + 2 ≠ h.next + 1 by omega), if_pos rfl,
        if_neg (show h.next + 4 ≠ h.next + 3 by omega), if_pos rfl]
      try dsimp only
      rw [List.map_append]
      rw [List.map_cons, List.map_nil]
      try dsimp only
      rw [if_pos rfl]
      try dsimp only
      apply mk_eq_of_hist
      rw [make_move_history_some v mv ((readRefs h ha).map (readInts h)) hv]
      rw [make_move_mailbox_eq_core]
      unfold readRefs readInts
      rw [Option.some.injEq]
      congr 1
      apply List.map_congr_left
      intro r hr
      have hrlt : r < h.next := hrs r hr
      try dsimp only
      rw [if_neg (show r ≠ h.next + 3 by omega), if_neg (show r ≠ h.next + 4 by omega),
        if_neg (show r ≠ h.next by omega), if_neg (show r ≠ h.next + 1 by omega),
        if_neg (show r ≠ h.next + 2 by omega)]
    · -- full apply without a history list
      rename_i heq
      set v := derefState h st with hvdef
      have hv : v.history = none := by
        rw [hvdef]
        unfold derefState
        rw [heq]
        rfl
      unfold derefState readNats readInts
      try dsimp only
      rw [Option.map_none']
      rw [if_pos rfl, if_neg (show h.next + 1 ≠ h.next by omega), if_pos rfl,
        if_neg (show h.next + 2 ≠ h.next by omega),
        if_neg (show h.next + 2 ≠ h.next + 1 by omega), if_pos rfl]
      try dsimp only
      apply mk_eq_of_hist
      exact (make_move_history_none v mv false hv).symm

/-- C6: `make_move` never mutates its input.  In the heap model of the
Python dict (arrays and history are references), `make_move` (1) leaves
every pre-existing heap cell — in particular every list the input state
references — bit-for-bit unchanged, (2) only grows the allocation
frontier, (3) leaves the dereferenced value of the input state unchanged,
(4) produces a result state dereferencing to the pure `make_move` of the
dereferenced input, and (5) called twice with identical (state, move)
arguments yields bit-for-bit identical result states. -/
theorem make_move_never_mutates_input (h : Heap) (st : PyBoardState) (mv : Move)
    (t : Bool) (hwf : HeapWF h st) :
    (∀ a, a < h.next → ((make_move_heap h st mv t).1).data a = h.data a) ∧
    h.next ≤ ((make_move_heap h st mv t).1).next ∧
    derefState (make_move_heap h st mv t).1 st = derefState h st ∧
    derefState (make_move_heap h st mv t).1 (make_move_heap h st mv t).2 =
      make_move (derefState h st) mv t ∧
    derefState (make_move_heap (make_move_heap h st mv t).1 st mv t).1
        (make_move_heap (make_move_heap h st mv t).1 st mv t).2 =
      derefState (make_move_heap h st mv t).1 (make_move_heap h st mv t).2 := by
  have hfr := make_move_heap_frame h st mv t
  have hnext := make_move_heap_next h st mv t
  have hderef := make_move_heap_deref h st mv t hwf
  have hcongr := derefState_congr h (make_move_heap h st mv t).1 st hfr hwf
  have hwf' : HeapWF (make_move_heap h st mv t).1 st := by
    obtain ⟨h1, h2, h3, h4⟩ := hwf
    refine ⟨lt_of_lt_of_le h1 hnext, lt_of_lt_of_le h2 hnext,
      lt_of_lt_of_le h3 hnext, ?_⟩
    cases hh : st.histA with
    | none => exact trivial
    | some ha =>
      rw [hh] at h4
      obtain ⟨hha, hrs⟩ := h4
      have hrr : readRefs (make_move_heap h st mv t).1 ha = readRefs h ha := by
        unfold readRefs
        rw [hfr ha hha]
      refine ⟨lt_of_lt_of_le hha hnext, ?_⟩
      intro r hr
      rw [hrr] at hr
      exact lt_of_lt_of_le (hrs r hr) hnext
  have hderef2 := make_move_heap_deref (make_move_heap h st mv t).1 st mv t hwf'
  refine ⟨hfr, hnext, hcongr, hderef, ?_⟩
  rw [hderef2, hderef, hcongr]

/-- Witness: the heap-resident initial position is well formed and the C6
frame/purity theorem holds at it for the full apply of e2-e4. -/
theorem make_move_never_mutates_input_witness :
    HeapWF demoHeap demoPyState ∧
    ((∀ a, a < demoHeap.next →
        ((make_move_heap demoHeap demoPyState (Move.mk 12 28 none none) false).1).data a =
          demoHeap.data a) ∧
      demoHeap.next ≤
        ((make_move_heap demoHeap demoPyState (Move.mk 12 28 none none) false).1).next ∧
      derefState (make_move_heap demoHeap demoPyState (Move.mk 12 28 none none) false).1
          demoPyState = derefState demoHeap demoPyState ∧
      derefState (make_move_heap demoHeap demoPyState (Move.mk 12 28 none none) false).1
          (make_move_heap demoHeap demoPyState (Move.mk 12 28 none none) false).2 =
        make_move (derefState demoHeap demoPyState) (Move.mk 12 28 none none) false ∧
      derefState
          (make_move_heap
            (make_move_heap demoHeap demoPyState (Move.mk 12 28 none none) false).1
            demoPyState (Move.mk 12 28 none none) false).1
          (make_move_heap
            (make_move_heap demoHeap demoPyState (Move.mk 12 28 none none) false).1
            demoPyState (Move.mk 12 28 none none) false).2 =
        derefState (make_move_heap demoHeap demoPyState (Move.mk 12 28 none none) false).1
          (make_move_heap demoHeap demoPyState (Move.mk 12 28 none none) false).2) :=
  ⟨by decide, make_move_never_mutates_input demoHeap demoPyState
    (Move.mk 12 28 none none) false (by decide)⟩

end Chess
